import Mathlib

/-!
The gobot crawler: a shallow embedding of `crawler/crawler.go`.

The file embeds the package `crawler` of the repository:

* the data model (`SiteMap`, `Page`) and its two renderers,
* the markup scanner `parse`, over the token stream of the HTML tokenizer,
* the traversal (`Crawl`, `crawl`) as a transition system on a pool of
  goroutines that share the package-level link cache `lc` and talk over
  unbuffered channels.

Go strings are Lean strings.  Functions of libraries outside the repository
(`net/url`, `net/http`, `golang.org/x/net/html`) are the fields of `Lib`.
-/

namespace Crawler

/-! ## Constants (crawler.go, lines 19-26) -/

def atag : String := "a"
def stag : String := "script"
def itag : String := "img"
def ltag : String := "link"
def href : String := "href"
def src : String := "src"

/-! ## Data model (crawler.go, lines 28-66) -/

/-- Page represents a resource that has been crawled. -/
structure Page where
  Path : String
  Links : List String
  Assets : List String
deriving DecidableEq

/-- SiteMap represents a crawled site/domain.  The zero value is `{}`. -/
structure SiteMap where
  URL : String := ""
  Pages : List Page := []
deriving DecidableEq

/-- `func (pg Page) String() string`: the buffer after each write. -/
def Page.String (pg : Page) : String :=
  let buffer := "" ++ ("Path: \n\t" ++ pg.Path ++ "\n\tLinks:\n")
  let buffer := pg.Links.foldl (fun buf l => buf ++ ("\t\t" ++ l ++ "\n")) buffer
  let buffer := buffer ++ "\tAssets:\n"
  let buffer := pg.Assets.foldl (fun buf a => buf ++ ("\t\t" ++ a ++ "\n")) buffer
  buffer

/-- `func (sm SiteMap) String() string`; `%s` of a `Page` is `Page.String`. -/
def SiteMap.String (sm : SiteMap) : String :=
  let buffer := "" ++ ("Site map for " ++ sm.URL ++ "\n")
  let buffer := sm.Pages.foldl (fun buf v => buf ++ v.String) buffer
  buffer

/-- The rendering of one page in the words of the format description: the
header with the path, one line per link, the assets header, one line per
asset. -/
def renderPage (pg : Page) : String :=
  "Path: \n\t" ++ pg.Path ++ "\n\tLinks:\n"
    ++ String.join (pg.Links.map (fun l => "\t\t" ++ l ++ "\n"))
    ++ "\tAssets:\n"
    ++ String.join (pg.Assets.map (fun a => "\t\t" ++ a ++ "\n"))

/-- The rendering of a site map in the words of the format description: the
title line followed by the page blocks in sequence order. -/
def renderSiteMap (sm : SiteMap) : String :=
  "Site map for " ++ sm.URL ++ "\n" ++ String.join (sm.Pages.map renderPage)

/-! ## Libraries outside the repository -/

/-- The fields of `net/url.URL` the crawler reads. -/
structure URL where
  Scheme : String
  Host : String
  Path : String
  RawQuery : String
  Fragment : String
deriving DecidableEq

/-- The token kinds of `golang.org/x/net/html`. -/
inductive TokenType
  | ErrorToken
  | TextToken
  | StartTagToken
  | EndTagToken
  | SelfClosingTagToken
  | CommentToken
  | DoctypeToken
deriving DecidableEq

/-- One token of the tokenizer: its kind, the lower-cased tag name (empty
when the token is no tag) and the attributes in document order. -/
structure Token where
  tt : TokenType
  name : String
  attr : List (String × String)
deriving DecidableEq

/-- The library functions the crawler calls. -/
structure Lib where
  /-- The method `RequestURI` of `url.URL`. -/
  RequestURI : URL → String
  /-- The method `String` of `url.URL`. -/
  URLString : URL → String
  /-- The method `Parse` of `url.URL`: the reference resolved against the
  receiver, `none` when the error is not nil. -/
  Parse : URL → String → Option URL
  /-- The function `http.Get`: the response, or the error. -/
  Get : String → Except String String
  /-- The function `ioutil.ReadAll` on the body of a response. -/
  ReadAll : String → Except String String
  /-- The tokens `z.Next()` yields for a document, up to the end of input. -/
  tokens : String → List Token

/-- The method `TagName` of the tokenizer: the name of a tag token and
whether it has attributes. -/
def TagName (tok : Token) : String × Bool :=
  if tok.name ≠ "" then
    match tok.tt with
    | .StartTagToken | .EndTagToken | .SelfClosingTagToken => (tok.name, !tok.attr.isEmpty)
    | _ => ("", false)
  else ("", false)

/-- The method `TagAttr` of the tokenizer on the attributes not yet returned:
key, value, whether more attributes follow, and the attributes left.  Only
start tags and self-closing tags hand out attributes. -/
def TagAttr (tt : TokenType) (rest : List (String × String)) :
    (String × String × Bool) × List (String × String) :=
  match tt, rest with
  | .StartTagToken, (k, v) :: more => ((k, v, !more.isEmpty), more)
  | .SelfClosingTagToken, (k, v) :: more => ((k, v, !more.isEmpty), more)
  | _, _ => (("", "", false), rest)

/-- The function `sort.Strings`: increasing lexicographic order.  Go compares
the bytes of the strings; on UTF-8 text that is the order of the code points,
the order of the lists of characters here. -/
def sortStrings (v : List String) : List String :=
  v.insertionSort (fun a b => a.toList ≤ b.toList)

/-! ## The scanner (crawler.go, lines 77-82 and 169-222) -/

/-- The table `attrs`. -/
def attrs : List (String × String) :=
  [(atag, href), (stag, src), (itag, src), (ltag, href)]

/-- An index expression `attrs[tg]`: the empty string for a missing key. -/
def attrsAt (tg : String) : String :=
  (attrs.lookup tg).getD ""

/-- The closure `attr` of `parse`: the loop over `z.TagAttr()`. -/
def attr (tt : TokenType) (a : String) : List (String × String) → String
  | [] =>
    -- `TagAttr` yields empty key and value and no more attributes
    let r := TagAttr tt []
    if r.1.1 = a then r.1.2.1 else ""
  | kv :: more =>
    let r := TagAttr tt (kv :: more)
    if r.1.1 = a then r.1.2.1
    else if r.1.2.2 = false then ""
    else attr tt a more

/-- The closure `slc` of `parse`: the keys of the map, sorted.  The order in
which `range` visits the keys does not show in the result
(`sortStrings_of_perm`). -/
def slc (m : List String) : List String :=
  sortStrings m

/-- The body of the `StartTagToken, EndTagToken` case of `parse` on the maps
`lnm` and `asm`; a map with empty values is the list of its keys. -/
def parseTag (lib : Lib) (base : URL) (tok : Token)
    (lnm asm : List String) : List String × List String :=
  let (tn, ha) := TagName tok
  if ha then
    let tg := tn
    let av := attr tok.tt (attrsAt tg) tok.attr
    if av ≠ "" then
      if tg = atag then
        match lib.Parse base av with
        | some url =>
          if url.Host = base.Host ∧ lib.RequestURI url ≠ lib.RequestURI base then
            (List.insert (lib.RequestURI url) lnm, asm)
          else (lnm, asm)
        | none => (lnm, asm)
      else if tg = stag ∨ tg = itag ∨ tg = ltag then
        (lnm, List.insert av asm)
      else (lnm, asm)
    else (lnm, asm)
  else (lnm, asm)

/-- The token loop of `parse`. -/
def parseLoop (lib : Lib) (base : URL) :
    List Token → List String → List String → List String × List String
  | [], lnm, asm => (slc lnm, slc asm)
  | tok :: z, lnm, asm =>
    match tok.tt with
    | .ErrorToken => (slc lnm, slc asm)
    | .StartTagToken | .EndTagToken =>
      parseLoop lib base z (parseTag lib base tok lnm asm).1 (parseTag lib base tok lnm asm).2
    | _ => parseLoop lib base z lnm asm

/-- `func parse(s string, base url.URL) (ln []string, as []string)`. -/
def parse (lib : Lib) (s : String) (base : URL) : List String × List String :=
  parseLoop lib base (lib.tokens s) [] []

/-! ## The traversal (crawler.go, lines 68-76 and 85-167)

A goroutine running `crawl` is a `Proc`: the point of the function body it
has reached, with the values of its live variables.  A step runs one
goroutine from one synchronisation point (the locked test of the cache, the
network request, a channel operation) to the next.  A send on an unbuffered
channel happens together with the receive that takes the value. -/

/-- `func fetch(url url.URL) (string, error)`. -/
def fetch (lib : Lib) (url : URL) : String × Option String :=
  match lib.Get (lib.URLString url) with
  | .error err => ("", some err)
  | .ok resp =>
    match lib.ReadAll resp with
    | .error err => ("", some err)
    | .ok bytes => (bytes, none)

/-- A channel of site maps: `ch` made by `Crawl` (line 95), or `c` made at
line 130 by the goroutine with the given number. -/
inductive Chan
  | root
  | child (parent : Nat)
deriving DecidableEq

/-- A goroutine running `crawl(url, ch)`:
* `start`: at line 109, before the cache is locked;
* `claimed`: the identifier was recorded, at line 117 before `fetch`;
* `errSend`: `fetch` returned `b` and an error, at the send of line 120;
* `collect`: in the loop of lines 142-147 with `chLnks` results still to
  receive; with none left, at the send of line 152;
* `done`: returned. -/
inductive Proc
  | start (url : URL) (ch : Chan)
  | claimed (url : URL) (ch : Chan)
  | errSend (url : URL) (b : String) (ch : Chan)
  | collect (sm : SiteMap) (chLnks : Nat) (ch : Chan)
  | done
deriving DecidableEq

/-- The process: the keys of `lc.links`, the addresses requested with
`http.Get` (latest first), the goroutines in the order of their creation, and
the value `Crawl` has received on its channel, once it has. -/
structure State where
  lc : List String
  net : List String
  procs : List Proc
  recv : Option SiteMap
deriving DecidableEq

/-- Lines 143-146: the receiver adds the pages of a received site map. -/
def gather (sm chsm : SiteMap) : SiteMap :=
  if chsm.Pages.length > 0 then { sm with Pages := sm.Pages ++ chsm.Pages } else sm

/-- A send of `v` on `ch`: possible when the receiver of the channel waits
for a value.  `Crawl` receives once (line 99); a goroutine receives while its
loop has results left to collect (line 143). -/
def deliver (s : State) (ch : Chan) (v : SiteMap) : Option State :=
  match ch with
  | .root =>
    match s.recv with
    | none => some { s with recv := some v }
    | some _ => none
  | .child j =>
    match s.procs[j]? with
    | some (.collect sm (n + 1) pch) =>
      some { s with procs := s.procs.set j (.collect (gather sm v) n pch) }
    | _ => none

/-- Lines 133-140: the links that parse as references of `url`. -/
def childURLs (lib : Lib) (url : URL) (ln : List String) : List URL :=
  ln.filterMap (fun v => lib.Parse url v)

/-- Lines 123-140 for goroutine `i`: scan the content, make the site map with
the page of `url`, start one goroutine per link that parses. -/
def expand (lib : Lib) (s : State) (i : Nat) (url : URL) (b : String) (ch : Chan) : State :=
  let ln := (parse lib b url).1
  let as := (parse lib b url).2
  let sm : SiteMap := { URL := lib.URLString url, Pages := [] ++ [⟨url.Path, ln, as⟩] }
  let kids := childURLs lib url ln
  { s with procs := s.procs.set i (.collect sm kids.length ch)
                      ++ kids.map (fun chURL => Proc.start chURL (.child i)) }

/-- `func crawl(url url.URL, ch chan<- SiteMap)`, one step of the goroutine
`i` that runs it; `none` when the goroutine cannot move (it waits for a
result, its send is not taken, or it has returned).
* `start`: lines 109-114 and 148-150, the locked test of `lc.links`;
* `claimed`: lines 117-121, `fetch`, and on success lines 123-140;
* `errSend`: the send of line 120, after which the function goes on with
  line 123;
* `collect` with nothing left to receive: the send of line 152. -/
def step (lib : Lib) (s : State) (i : Nat) : Option State :=
  match s.procs[i]? with
  | none => none
  | some (.start url ch) =>
    if lib.RequestURI url ∈ s.lc then
      some { s with procs := s.procs.set i (.collect {} 0 ch) }
    else
      some { s with lc := lib.RequestURI url :: s.lc,
                    procs := s.procs.set i (.claimed url ch) }
  | some (.claimed url ch) =>
    let s1 := { s with net := lib.URLString url :: s.net }
    match fetch lib url with
    | (b, none) => some (expand lib s1 i url b ch)
    | (b, some _) => some { s1 with procs := s1.procs.set i (.errSend url b ch) }
  | some (.errSend url b ch) =>
    match deliver s ch {} with
    | some s1 => some (expand lib s1 i url b ch)
    | none => none
  | some (.collect sm 0 ch) =>
    match deliver s ch sm with
    | some s1 => some { s1 with procs := s1.procs.set i .done }
    | none => none
  | some (.collect _ (_ + 1) _) => none
  | some .done => none

/-- The steps of a schedule, one goroutine number per step; `none` when a
scheduled goroutine cannot move. -/
def run (lib : Lib) : State → List Nat → Option State
  | s, [] => some s
  | s, i :: sched =>
    match step lib s i with
    | some s1 => run lib s1 sched
    | none => none

/-- The process when `Crawl` has started `crawl(url, ch)` (line 97). -/
def spawn (links net : List String) (url : URL) : State :=
  { lc := links, net := net, procs := [.start url .root], recv := none }

/-- `func Crawl(url url.URL) (sm SiteMap, err error)` in a process whose
cache holds `links` and that has requested `net`, under a schedule of the
goroutines the call starts: the site map and error returned and the process
at that moment, `none` while `Crawl` has not received on its channel.  The
cache is the package variable `lc`: a later call starts with the cache the
earlier calls left.  Goroutines an earlier call left blocked are not part of
the process of a later call. -/
def Crawl (lib : Lib) (links net : List String) (url : URL) (sched : List Nat) :
    Option (SiteMap × Option String × State) :=
  if url.Host = "" then
    some ({}, some "crawler: host missing from URL",
      { lc := links, net := net, procs := [], recv := none })
  else if url.Path = "" then
    some ({}, some "crawler: path missing from URL ",
      { lc := links, net := net, procs := [], recv := none })
  else
    match run lib (spawn links net url) sched with
    | some s =>
      match s.recv with
      | some sm => some (sm, none, s)
      | none => none
    | none => none


/-! ## The tags of a document -/

/-- The tokens the loop of `parse` comes to: those before the first
`ErrorToken`. -/
def scanned (toks : List Token) : List Token :=
  toks.takeWhile (fun t => decide (t.tt ≠ .ErrorToken))

/-- The token is an anchor whose reference counts as the link `l`: a start
tag `a` whose first `href` is not empty and resolves against the base to a
URL with the host of the base and an identifier `l` other than that of the
base. -/
def IsLinkOf (lib : Lib) (base : URL) (tok : Token) (l : String) : Prop :=
  tok.tt = .StartTagToken ∧ tok.name = atag ∧
    ∃ av u, tok.attr.lookup href = some av ∧ av ≠ "" ∧ lib.Parse base av = some u ∧
      u.Host = base.Host ∧ lib.RequestURI u ≠ lib.RequestURI base ∧ l = lib.RequestURI u

/-- The token names the asset `a`: a start tag `script`, `img` or `link` whose
first attribute with the key of the table has the value `a`, not empty. -/
def IsAssetOf (tok : Token) (a : String) : Prop :=
  tok.tt = .StartTagToken ∧ (tok.name = stag ∨ tok.name = itag ∨ tok.name = ltag) ∧
    tok.attr.lookup (attrsAt tok.name) = some a ∧ a ≠ ""


/-! ## The transitions, case by case -/

/-- A send of `v` on `ch` that is taken, and the process after it. -/
inductive Deliver : State → Chan → SiteMap → State → Prop
  | root {s : State} {v : SiteMap} :
      s.recv = none → Deliver s .root v { s with recv := some v }
  | child {s : State} {v : SiteMap} {j : Nat} {sm : SiteMap} {n : Nat} {pch : Chan} :
      s.procs[j]? = some (.collect sm (n + 1) pch) →
      Deliver s (.child j) v { s with procs := s.procs.set j (.collect (gather sm v) n pch) }

/-- The steps goroutine `i` can take, one constructor for each branch of
`step`. -/
inductive Step (lib : Lib) : State → Nat → State → Prop
  | claimFail {s : State} {i : Nat} {url : URL} {ch : Chan} :
      s.procs[i]? = some (.start url ch) → lib.RequestURI url ∈ s.lc →
      Step lib s i { s with procs := s.procs.set i (.collect {} 0 ch) }
  | claimOk {s : State} {i : Nat} {url : URL} {ch : Chan} :
      s.procs[i]? = some (.start url ch) → lib.RequestURI url ∉ s.lc →
      Step lib s i { s with lc := lib.RequestURI url :: s.lc,
                            procs := s.procs.set i (.claimed url ch) }
  | fetchOk {s : State} {i : Nat} {url : URL} {ch : Chan} {b : String} :
      s.procs[i]? = some (.claimed url ch) → fetch lib url = (b, none) →
      Step lib s i (expand lib { s with net := lib.URLString url :: s.net } i url b ch)
  | fetchErr {s : State} {i : Nat} {url : URL} {ch : Chan} {b e : String} :
      s.procs[i]? = some (.claimed url ch) → fetch lib url = (b, some e) →
      Step lib s i { s with net := lib.URLString url :: s.net,
                            procs := s.procs.set i (.errSend url b ch) }
  | errSend {s s1 : State} {i : Nat} {url : URL} {ch : Chan} {b : String} :
      s.procs[i]? = some (.errSend url b ch) → Deliver s ch {} s1 →
      Step lib s i (expand lib s1 i url b ch)
  | send {s s1 : State} {i : Nat} {sm : SiteMap} {ch : Chan} :
      s.procs[i]? = some (.collect sm 0 ch) → Deliver s ch sm s1 →
      Step lib s i { s1 with procs := s1.procs.set i .done }

/-! ## What a process holds -/

/-- The page `crawl` builds for a URL: its path with the links and assets
scanned from what `fetch` returned for it. -/
def pageOf (lib : Lib) (url : URL) : Page :=
  ⟨url.Path, (parse lib (fetch lib url).1 url).1, (parse lib (fetch lib url).1 url).2⟩

/-- The URLs `crawl` starts a goroutine for after fetching `url`. -/
def kids (lib : Lib) (url : URL) : List URL :=
  childURLs lib url (parse lib (fetch lib url).1 url).1

/-- The URLs the traversal can come to from the seed along links. -/
inductive Reach (lib : Lib) (seed : URL) : URL → Prop
  | seed : Reach lib seed seed
  | link {u c : URL} : Reach lib seed u → c ∈ kids lib u → Reach lib seed c

/-- The pages in the site map of a goroutine. -/
def Proc.held : Proc → Multiset Page
  | .collect sm _ _ => (sm.Pages : Multiset Page)
  | _ => 0

/-- The URL of a goroutine that has not tested the cache yet. -/
def Proc.fresh : Proc → Multiset URL
  | .start url _ => {url}
  | _ => 0

/-- The URL of a goroutine that recorded its identifier and has not made its
page yet. -/
def Proc.pending : Proc → Multiset URL
  | .claimed url _ => {url}
  | .errSend url _ _ => {url}
  | _ => 0

/-- The URL and content of a goroutine at the send after a failed fetch. -/
def Proc.failed : Proc → Multiset (URL × String)
  | .errSend url b _ => {(url, b)}
  | _ => 0

/-- The channel a goroutine will still send on. -/
def Proc.out : Proc → Option Chan
  | .start _ ch => some ch
  | .claimed _ ch => some ch
  | .errSend _ _ ch => some ch
  | .collect _ _ ch => some ch
  | .done => none

/-- Whether a goroutine will still send on the channel: 1 or 0. -/
def Proc.sends (c : Chan) (p : Proc) : Nat :=
  if p.out = some c then 1 else 0

/-- The number of results a goroutine still waits for. -/
def Proc.expect : Proc → Nat
  | .collect _ n _ => n
  | _ => 0

/-- The steps a goroutine has left, its children counted in. -/
def Proc.weight (lib : Lib) : Proc → Nat
  | .start _ _ => 2
  | .claimed url _ => 2 * (kids lib url).length + 4
  | .errSend _ _ _ => 0
  | .collect _ _ _ => 1
  | .done => 0

/-- All pages of a process: those of the goroutines and those received. -/
def State.pages (s : State) : Multiset Page :=
  (s.procs.map Proc.held).sum + ((s.recv.map (fun sm => sm.Pages)).getD [] : List Page)

/-- The URLs of the goroutines that have not tested the cache yet. -/
def State.fresh (s : State) : Multiset URL :=
  (s.procs.map Proc.fresh).sum

/-- The URLs recorded in the cache whose page is not made yet. -/
def State.pending (s : State) : Multiset URL :=
  (s.procs.map Proc.pending).sum

/-- The goroutines at the send after a failed fetch. -/
def State.failed (s : State) : Multiset (URL × String) :=
  (s.procs.map Proc.failed).sum

/-- The page made from content `b` for `url` (line 127). -/
def pageFrom (lib : Lib) (url : URL) (b : String) : Page :=
  ⟨url.Path, (parse lib b url).1, (parse lib b url).2⟩

/-- What a step does to the cache, the pages, and the URLs in flight. -/
inductive Moves (lib : Lib) : State → State → Prop
  | claimFail {s t : State} (u : URL) :
      t.lc = s.lc → t.pages = s.pages → s.fresh = u ::ₘ t.fresh →
      t.pending = s.pending → t.failed = s.failed →
      lib.RequestURI u ∈ s.lc → Moves lib s t
  | claimOk {s t : State} (u : URL) :
      t.lc = lib.RequestURI u :: s.lc → t.pages = s.pages → s.fresh = u ::ₘ t.fresh →
      t.pending = u ::ₘ s.pending → t.failed = s.failed →
      lib.RequestURI u ∉ s.lc → Moves lib s t
  | fetchOk {s t : State} (u : URL) (b : String) :
      t.lc = s.lc → t.pages = pageFrom lib u b ::ₘ s.pages →
      t.fresh = s.fresh + (childURLs lib u (parse lib b u).1 : List URL) →
      s.pending = u ::ₘ t.pending → t.failed = s.failed →
      fetch lib u = (b, none) → Moves lib s t
  | fetchErr {s t : State} (u : URL) (b e : String) :
      t.lc = s.lc → t.pages = s.pages → t.fresh = s.fresh →
      t.pending = s.pending → t.failed = (u, b) ::ₘ s.failed →
      fetch lib u = (b, some e) → u ∈ s.pending → Moves lib s t
  | errSend {s t : State} (u : URL) (b : String) :
      t.lc = s.lc → t.pages = pageFrom lib u b ::ₘ s.pages →
      t.fresh = s.fresh + (childURLs lib u (parse lib b u).1 : List URL) →
      s.pending = u ::ₘ t.pending → s.failed = (u, b) ::ₘ t.failed → Moves lib s t
  | send {s t : State} :
      t.lc = s.lc → t.pages = s.pages → t.fresh = s.fresh →
      t.pending = s.pending → t.failed = s.failed → Moves lib s t

/-- The account of a traversal that started with the cache `links0` at the
seed: the pages made so far are the pages of URLs `L` with distinct
identifiers, all recorded in the cache during this traversal. -/
def Account (lib : Lib) (links0 : List String) (Q : URL → Prop) (seed : URL)
    (s : State) : Prop :=
  ∃ L : Multiset URL,
    s.pages = L.map (pageOf lib) ∧
    ((L + s.pending).map lib.RequestURI).Nodup ∧
    (∀ u ∈ L + s.pending, lib.RequestURI u ∈ s.lc ∧ lib.RequestURI u ∉ links0) ∧
    (∀ x ∈ s.lc, x ∈ links0 ∨ x ∈ (L + s.pending).map lib.RequestURI) ∧
    (∀ x ∈ links0, x ∈ s.lc) ∧
    (∀ u ∈ L, ∀ c ∈ kids lib u, lib.RequestURI c ∈ s.lc ∨ c ∈ s.fresh) ∧
    (∀ ub ∈ s.failed, ub.2 = (fetch lib ub.1).1) ∧
    (∀ u, u ∈ L ∨ u ∈ s.pending ∨ u ∈ s.fresh → Q u) ∧
    (lib.RequestURI seed ∈ s.lc ∨ seed ∈ s.fresh)

/-- The data of an example site. -/
structure Site where
  refs : List (String × URL)
  docs : List (String × String)
  toks : List (String × List Token)

/-- The libraries on an example site.  `RequestURI` and `URLString` are those
of `net/url` on a URL with scheme and host whose path needs no escaping;
an address without a document is a transport failure. -/
def Site.lib (site : Site) : Lib where
  RequestURI u :=
    (if u.Path = "" then "/" else u.Path) ++ (if u.RawQuery = "" then "" else "?" ++ u.RawQuery)
  URLString u :=
    u.Scheme ++ "://" ++ u.Host ++ u.Path ++ (if u.RawQuery = "" then "" else "?" ++ u.RawQuery)
      ++ (if u.Fragment = "" then "" else "#" ++ u.Fragment)
  Parse _ ref := site.refs.lookup ref
  Get addr :=
    match site.docs.lookup addr with
    | some _ => .ok addr
    | none => .error "connection refused"
  ReadAll resp :=
    match site.docs.lookup resp with
    | some doc => .ok doc
    | none => .error "unexpected EOF"
  tokens doc := (site.toks.lookup doc).getD []

/-- The URL `http://test.com` followed by a path and a query. -/
def testURL (path query : String) : URL :=
  { Scheme := "http", Host := "test.com", Path := path, RawQuery := query, Fragment := "" }

/-- The tokens of `<a href="...">x</a>`. -/
def anchor (ref : String) : List Token :=
  [⟨.StartTagToken, "a", [("href", ref)]⟩, ⟨.TextToken, "", []⟩, ⟨.EndTagToken, "a", []⟩]

/-- Three pages linked in a cycle: `/a` to `/b` to `/c` to `/a`. -/
def cycleSite : Site where
  refs := [("/a", testURL "/a" ""), ("/b", testURL "/b" ""), ("/c", testURL "/c" "")]
  docs := [("http://test.com/a", "<a href=\"/b\">x</a>"),
           ("http://test.com/b", "<a href=\"/c\">x</a>"),
           ("http://test.com/c", "<a href=\"/a\">x</a>")]
  toks := [("<a href=\"/b\">x</a>", anchor "/b"),
           ("<a href=\"/c\">x</a>", anchor "/c"),
           ("<a href=\"/a\">x</a>", anchor "/a")]

/-- A page at `/` that links to itself with a query; the server answers by
path, so `/?x=1` serves the same document. -/
def querySite : Site where
  refs := [("/?x=1", testURL "/" "x=1")]
  docs := [("http://test.com/", "<a href=\"/?x=1\">x</a>"),
           ("http://test.com/?x=1", "<a href=\"/?x=1\">x</a>")]
  toks := [("<a href=\"/?x=1\">x</a>", anchor "/?x=1")]

/-- A page at `/` that links to `/a` and `/b`; `/b` is an empty document and
the request for `/a` fails. -/
def failSite : Site where
  refs := [("/a", testURL "/a" ""), ("/b", testURL "/b" "")]
  docs := [("http://test.com/", "<a href=\"/a\">x</a><a href=\"/b\">x</a>"),
           ("http://test.com/b", "")]
  toks := [("<a href=\"/a\">x</a><a href=\"/b\">x</a>", anchor "/a" ++ anchor "/b"),
           ("", [])]

/-- A site where every request fails. -/
def downSite : Site where
  refs := []
  docs := []
  toks := []

/-- A document with an image whose `src` is empty, an image written as a
self-closing tag and a script on another host. -/
def assetSite : Site where
  refs := []
  docs := [("http://test.com/",
            "<img src=\"\"><img src=\"/i.png\"/><script src=\"http://cdn.test/b.js\">")]
  toks := [("<img src=\"\"><img src=\"/i.png\"/><script src=\"http://cdn.test/b.js\">",
            [⟨.StartTagToken, "img", [("src", "")]⟩,
             ⟨.SelfClosingTagToken, "img", [("src", "/i.png")]⟩,
             ⟨.StartTagToken, "script", [("src", "http://cdn.test/b.js")]⟩])]

/-- The document of `assetSite`. -/
def assetDoc : String :=
  "<img src=\"\"><img src=\"/i.png\"/><script src=\"http://cdn.test/b.js\">"

/-- The URL of the reference `/test/users`: a path without host. -/
def noHostURL : URL :=
  { Scheme := "", Host := "", Path := "/test/users", RawQuery := "", Fragment := "" }

/-- The URL `http://fake.com/users`. -/
def fakeURL : URL :=
  { Scheme := "http", Host := "fake.com", Path := "/users", RawQuery := "", Fragment := "" }

/-- A page at `/` with a link to itself, a link to `/foo` and a link to
another host. -/
def linkSite : Site where
  refs := [("/", testURL "/" ""), ("/foo", testURL "/foo" ""),
           ("http://fake.com/users", fakeURL)]
  docs := [("http://test.com/",
            "<a href=\"/\">x</a><a href=\"/foo\">x</a><a href=\"http://fake.com/users\">x</a>")]
  toks := [("<a href=\"/\">x</a><a href=\"/foo\">x</a><a href=\"http://fake.com/users\">x</a>",
            anchor "/" ++ anchor "/foo" ++ anchor "http://fake.com/users")]

/-- The query string `qs` of the tests, without the question mark. -/
def qs : String := "foo=bar&this=that"

/-- The expected pages `pgData` of the tests, for `/`, `/foo` and `/bar`. -/
def pgData : List Page :=
  [{ Path := "/",
     Links := ["/bar?foo=bar&this=that", "/foo"],
     Assets := ["/css/doc1.css", "/images/doc1.jpg", "doc1.js", "http://images.com/doc1.jpg",
                "http://scripts.com/doc1.js"] },
   { Path := "/foo",
     Links := ["/?foo=bar&this=that", "/bar"],
     Assets := ["/doc2/doc2.js", "/images/doc2.jpg", "doc2.css", "doc2.js"] },
   { Path := "/bar",
     Links := ["/foo"],
     Assets := ["/images/doc3.jpg", "doc3.css", "doc3.js"] }]

/-- A start tag with one attribute. -/
def tag (name key val : String) : Token :=
  ⟨.StartTagToken, name, [(key, val)]⟩

/-- A start tag without attributes, and an end tag. -/
def bare (tt : TokenType) (name : String) : Token :=
  ⟨tt, name, []⟩

/-- The tag tokens of the document the template `doc1Tmpl` makes from the
first page of `pgData`, in order (the text between them left out). -/
def doc1 : List Token :=
  [⟨.DoctypeToken, "", []⟩, tag "html" "lang" "en", bare .StartTagToken "head",
   tag "meta" "charset" "utf-8", bare .StartTagToken "title", bare .EndTagToken "title",
   ⟨.StartTagToken, "link", [("rel", "stylesheet"), ("href", "/css/doc1.css")]⟩,
   tag "script" "src" "/images/doc1.jpg", bare .EndTagToken "script",
   tag "script" "src" "doc1.js", bare .EndTagToken "script", bare .EndTagToken "head",
   bare .StartTagToken "body",
   tag "a" "href" "/", bare .EndTagToken "a",
   tag "a" "href" "/bar?foo=bar&this=that", bare .EndTagToken "a",
   bare .StartTagToken "div", tag "a" "href" "/foo", bare .EndTagToken "a",
   bare .EndTagToken "div",
   tag "a" "href" "http://fake.com/users", bare .EndTagToken "a",
   tag "img" "src" "http://images.com/doc1.jpg", tag "img" "src" "http://scripts.com/doc1.js",
   bare .EndTagToken "body", bare .EndTagToken "html"]

/-- The tag tokens of the document of `doc2Tmpl` for the second page. -/
def doc2 : List Token :=
  [⟨.DoctypeToken, "", []⟩, tag "html" "lang" "en", bare .StartTagToken "head",
   tag "meta" "charset" "utf-8", bare .StartTagToken "title", bare .EndTagToken "title",
   ⟨.StartTagToken, "link", [("rel", "stylesheet"), ("href", "/doc2/doc2.js")]⟩,
   tag "script" "src" "/images/doc2.jpg", bare .EndTagToken "script",
   tag "script" "src" "doc2.css", bare .EndTagToken "script", bare .EndTagToken "head",
   bare .StartTagToken "body",
   tag "a" "href" "/?foo=bar&this=that#test", bare .EndTagToken "a",
   bare .StartTagToken "div", bare .StartTagToken "div", tag "a" "href" "/bar",
   bare .EndTagToken "a", bare .EndTagToken "div", bare .EndTagToken "div",
   tag "img" "src" "doc2.js",
   bare .EndTagToken "body", bare .EndTagToken "html"]

/-- The tag tokens of the document of `doc3Tmpl` for the third page. -/
def doc3 : List Token :=
  [⟨.DoctypeToken, "", []⟩, tag "html" "lang" "en", bare .StartTagToken "head",
   tag "meta" "charset" "utf-8", bare .StartTagToken "title", bare .EndTagToken "title",
   ⟨.StartTagToken, "link", [("rel", "stylesheet"), ("href", "/images/doc3.jpg")]⟩,
   tag "script" "src" "doc3.css", bare .EndTagToken "script", bare .EndTagToken "head",
   bare .StartTagToken "body",
   tag "a" "href" "/foo", bare .EndTagToken "a",
   tag "img" "src" "doc3.js",
   bare .EndTagToken "body", bare .EndTagToken "html"]

/-- The mock server `mockSrvr` of the tests, which answers by path, behind the
host `test.com`; the documents go by the names `doc1`, `doc2`, `doc3`. -/
def mockSite : Site where
  refs := [("/", testURL "/" ""), ("/foo", testURL "/foo" ""), ("/bar", testURL "/bar" ""),
           ("/bar?foo=bar&this=that", testURL "/bar" qs),
           ("/?foo=bar&this=that", testURL "/" qs),
           ("/?foo=bar&this=that#test",
             { Scheme := "http", Host := "test.com", Path := "/", RawQuery := qs,
               Fragment := "test" }),
           ("http://fake.com/users", fakeURL)]
  docs := [("http://test.com/", "doc1"), ("http://test.com/?foo=bar&this=that", "doc1"),
           ("http://test.com/foo", "doc2"),
           ("http://test.com/bar", "doc3"), ("http://test.com/bar?foo=bar&this=that", "doc3")]
  toks := [("doc1", doc1), ("doc2", doc2), ("doc3", doc3)]


/-! ## Rendering -/

theorem foldl_append_init (xs : List String) (init : String) :
    xs.foldl (fun r s => r ++ s) init = init ++ xs.foldl (fun r s => r ++ s) "" := by
  induction xs generalizing init with
  | nil => simp
  | cons x xs ih =>
    simp only [List.foldl_cons]
    rw [ih (init ++ x), ih ("" ++ x), String.empty_append, String.append_assoc]

theorem join_cons (x : String) (xs : List String) :
    String.join (x :: xs) = x ++ String.join xs := by
  unfold String.join
  simp only [List.foldl_cons]
  rw [foldl_append_init, String.empty_append]

theorem foldl_write_eq {α : Type} (f : α → String) (xs : List α) (init : String) :
    xs.foldl (fun buf x => buf ++ f x) init = init ++ String.join (xs.map f) := by
  induction xs generalizing init with
  | nil => simp [String.join]
  | cons x xs ih =>
    simp only [List.foldl_cons, List.map_cons]
    rw [ih, join_cons, String.append_assoc]

theorem Page_String_eq (pg : Page) : pg.String = renderPage pg := by
  unfold Page.String renderPage
  simp only [foldl_write_eq, String.empty_append, String.append_assoc]

/-- C2: the renderers write exactly the described format.  `SiteMap.String`
is the title line followed by `Page.String` of each page in sequence order,
and `Page.String` is the path header, one line per stored link in stored
order, the assets header and one line per stored asset in stored order:
nothing is sorted again and no duplicate is removed. -/
theorem String_format (sm : SiteMap) :
    sm.String
        = "Site map for " ++ sm.URL ++ "\n" ++ String.join (sm.Pages.map Page.String)
      ∧ sm.String = renderSiteMap sm
      ∧ ∀ pg : Page,
          pg.String
            = "Path: \n\t" ++ pg.Path ++ "\n\tLinks:\n"
                ++ String.join (pg.Links.map (fun l => "\t\t" ++ l ++ "\n"))
                ++ "\tAssets:\n"
                ++ String.join (pg.Assets.map (fun a => "\t\t" ++ a ++ "\n")) := by
  have h : sm.String
      = "Site map for " ++ sm.URL ++ "\n" ++ String.join (sm.Pages.map Page.String) := by
    unfold SiteMap.String
    simp only [foldl_write_eq, String.empty_append, String.append_assoc]
  refine ⟨h, ?_, fun pg => Page_String_eq pg⟩
  rw [h, renderSiteMap]
  congr 2
  exact List.map_congr_left (fun pg _ => Page_String_eq pg)

/-! ## The scanner -/

theorem attr_start (a : String) (l : List (String × String)) :
    attr .StartTagToken a l = (l.lookup a).getD "" := by
  induction l with
  | nil => simp [attr, TagAttr]
  | cons kv more ih =>
    obtain ⟨k, v⟩ := kv
    rw [attr, List.lookup_cons]
    simp only [TagAttr]
    by_cases h : k = a
    · subst h
      simp
    · have h2 : (a == k) = false := by simpa using fun h3 => h h3.symm
      simp only [h, if_false, h2]
      cases more with
      | nil => simp
      | cons kv2 more2 => simpa using ih

theorem attr_end (a : String) (l : List (String × String)) :
    attr .EndTagToken a l = "" := by
  cases l with
  | nil => simp [attr, TagAttr]
  | cons kv more => simp [attr, TagAttr]

theorem parseTag_start_links (lib : Lib) (base : URL) (tok : Token) (lnm asm : List String)
    (ht : tok.tt = .StartTagToken) (l : String) :
    l ∈ (parseTag lib base tok lnm asm).1 ↔ l ∈ lnm ∨ IsLinkOf lib base tok l := by
  unfold IsLinkOf
  by_cases hn : tok.name = ""
  · have h0 : ¬ ("" = atag) := by decide
    simp [parseTag, TagName, hn, h0]
  by_cases he : tok.attr = []
  · simp [parseTag, TagName, hn, he, ht]
  have hha : (!tok.attr.isEmpty) = true := by
    cases h : tok.attr with
    | nil => exact absurd h he
    | cons _ _ => rfl
  simp only [parseTag, TagName, hn, ht, hha, attr_start, ne_eq, not_false_eq_true, if_true]
  by_cases ha : tok.name = atag
  · have hat : attrsAt tok.name = href := by rw [ha]; decide
    simp only [ha] at hat ⊢
    simp only [hat, if_true, true_and]
    cases hl : List.lookup href tok.attr with
    | none => simp
    | some av =>
      simp only [Option.getD_some]
      by_cases hav : av = ""
      · simp [hav]
      · simp only [hav, not_false_eq_true, if_true]
        cases hp : lib.Parse base av with
        | none => simp [hp]
        | some u =>
          simp only
          by_cases hc : u.Host = base.Host ∧ lib.RequestURI u ≠ lib.RequestURI base
          · simp only [hc, if_true, List.mem_insert_iff, ne_eq, not_false_eq_true, and_self]
            constructor
            · rintro (h | h)
              · exact Or.inr ⟨av, u, by simpa using  ⟨hav, hp, hc.1, hc.2, h⟩⟩
              · exact Or.inl h
            · rintro (h | ⟨av2, u2, h1, h2, h3, h4, h5, h6⟩)
              · exact Or.inr h
              · simp only [Option.some.injEq] at h1
                subst h1
                rw [hp] at h3
                simp only [Option.some.injEq] at h3
                subst h3
                exact Or.inl h6
          · simp only [hc, if_false]
            constructor
            · exact Or.inl
            · rintro (h | ⟨av2, u2, h1, h2, h3, h4, h5, h6⟩)
              · exact h
              · simp only [Option.some.injEq] at h1
                subst h1
                rw [hp] at h3
                simp only [Option.some.injEq] at h3
                subst h3
                exact absurd ⟨h4, h5⟩ hc
  · simp only [ha, if_false, false_and, or_false]
    split
    · split <;> simp
    · simp
theorem parseTag_start_assets (lib : Lib) (base : URL) (tok : Token) (lnm asm : List String)
    (ht : tok.tt = .StartTagToken) (a : String) :
    a ∈ (parseTag lib base tok lnm asm).2 ↔ a ∈ asm ∨ IsAssetOf tok a := by
  unfold IsAssetOf
  by_cases hn : tok.name = ""
  · have h1 : ¬ ("" = stag) := by decide
    have h2 : ¬ ("" = itag) := by decide
    have h3 : ¬ ("" = ltag) := by decide
    simp [parseTag, TagName, hn, h1, h2, h3]
  by_cases he : tok.attr = []
  · simp [parseTag, TagName, hn, he, ht]
  have hha : (!tok.attr.isEmpty) = true := by
    cases h : tok.attr with
    | nil => exact absurd h he
    | cons _ _ => rfl
  simp only [parseTag, TagName, hn, ht, hha, attr_start, ne_eq, not_false_eq_true, if_true,
    true_and]
  by_cases ha : tok.name = atag
  · have h1 : ¬ (atag = stag) := by decide
    have h2 : ¬ (atag = itag) := by decide
    have h3 : ¬ (atag = ltag) := by decide
    simp only [ha, h1, h2, h3, or_self, false_and, or_false, if_true]
    split
    · split
      · split <;> simp
      · simp
    · simp
  · simp only [ha, if_false]
    by_cases hk : tok.name = stag ∨ tok.name = itag ∨ tok.name = ltag
    · simp only [hk, if_true, true_and]
      cases hl : List.lookup (attrsAt tok.name) tok.attr with
      | none => simp
      | some av =>
        simp only [Option.getD_some, Option.some.injEq]
        by_cases hav : av = ""
        · subst hav
          simp only [not_true_eq_false, if_false]
          constructor
          · exact Or.inl
          · rintro (h | ⟨h1, h2⟩)
            · exact h
            · exact absurd h1.symm h2
        · simp only [hav, not_false_eq_true, if_true, List.mem_insert_iff]
          constructor
          · rintro (h | h)
            · exact Or.inr ⟨h.symm, h ▸ hav⟩
            · exact Or.inl h
          · rintro (h | ⟨h1, _⟩)
            · exact Or.inr h
            · exact Or.inl h1.symm
    · simp only [hk, if_false, false_and, or_false]
      split <;> simp

theorem parseTag_end (lib : Lib) (base : URL) (tok : Token) (lnm asm : List String)
    (ht : tok.tt = .EndTagToken) : parseTag lib base tok lnm asm = (lnm, asm) := by
  simp only [parseTag, TagName, ht, attr_end]
  split <;> simp

theorem parseTag_nodup (lib : Lib) (base : URL) (tok : Token) (lnm asm : List String)
    (h1 : lnm.Nodup) (h2 : asm.Nodup) :
    (parseTag lib base tok lnm asm).1.Nodup ∧ (parseTag lib base tok lnm asm).2.Nodup := by
  unfold parseTag
  simp only
  repeat' split
  all_goals first
    | exact ⟨h1, h2⟩
    | exact ⟨h1.insert, h2⟩
    | exact ⟨h1, h2.insert⟩

theorem sortStrings_perm (v : List String) : (sortStrings v).Perm v :=
  List.perm_insertionSort _ v

theorem sortStrings_sorted (v : List String) : List.Sorted (fun a b => a ≤ b) (sortStrings v) := by
  have hT : IsTotal String (fun a b => a.toList ≤ b.toList) := ⟨fun a b => by
    have := le_total a b
    simpa [String.le_iff_toList_le] using this⟩
  have hR : IsTrans String (fun a b => a.toList ≤ b.toList) := ⟨fun a b c h1 h2 => by
    rw [← String.le_iff_toList_le] at *
    exact le_trans h1 h2⟩
  have h := List.sorted_insertionSort (fun a b : String => a.toList ≤ b.toList) v
  exact List.Pairwise.imp (fun hab => String.le_iff_toList_le.mpr hab) h

theorem sortStrings_strict (v : List String) (h : v.Nodup) :
    List.Sorted (fun a b => a < b) (sortStrings v) :=
  (sortStrings_sorted v).lt_of_le ((sortStrings_perm v).nodup_iff.mpr h)

/-- The sorted keys do not depend on the order the keys are listed in. -/
theorem sortStrings_of_perm (v w : List String) (h : v.Perm w) :
    sortStrings v = sortStrings w :=
  List.eq_of_perm_of_sorted ((sortStrings_perm v).trans (h.trans (sortStrings_perm w).symm))
    (sortStrings_sorted v) (sortStrings_sorted w)

theorem parseLoop_spec (lib : Lib) (base : URL) (toks : List Token) (lnm asm : List String)
    (h1 : lnm.Nodup) (h2 : asm.Nodup) :
    ∃ lnm2 asm2 : List String, lnm2.Nodup ∧ asm2.Nodup ∧
      parseLoop lib base toks lnm asm = (slc lnm2, slc asm2) ∧
      (∀ l, l ∈ lnm2 ↔ l ∈ lnm ∨ ∃ tok ∈ scanned toks, IsLinkOf lib base tok l) ∧
      (∀ a, a ∈ asm2 ↔ a ∈ asm ∨ ∃ tok ∈ scanned toks, IsAssetOf tok a) := by
  induction toks generalizing lnm asm with
  | nil => exact ⟨lnm, asm, h1, h2, rfl, by simp [scanned], by simp [scanned]⟩
  | cons tok z ih =>
    cases ht : tok.tt with
    | ErrorToken =>
      refine ⟨lnm, asm, h1, h2, ?_, ?_, ?_⟩
      · simp [parseLoop, ht]
      · simp [scanned, ht]
      · simp [scanned, ht]
    | StartTagToken =>
      obtain ⟨n1, n2⟩ := parseTag_nodup lib base tok lnm asm h1 h2
      obtain ⟨lnm2, asm2, k1, k2, k3, k4, k5⟩ := ih _ _ n1 n2
      refine ⟨lnm2, asm2, k1, k2, ?_, ?_, ?_⟩
      · simp only [parseLoop, ht]
        exact k3
      · intro l
        rw [k4, parseTag_start_links lib base tok lnm asm ht]
        simp only [scanned, List.takeWhile_cons, ht]
        simp [or_assoc]
      · intro a
        rw [k5, parseTag_start_assets lib base tok lnm asm ht]
        simp only [scanned, List.takeWhile_cons, ht]
        simp [or_assoc]
    | EndTagToken =>
      obtain ⟨lnm2, asm2, k1, k2, k3, k4, k5⟩ := ih lnm asm h1 h2
      refine ⟨lnm2, asm2, k1, k2, ?_, ?_, ?_⟩
      · simp only [parseLoop, ht, parseTag_end lib base tok lnm asm ht]
        exact k3
      · intro l
        rw [k4]
        simp only [scanned, List.takeWhile_cons, ht]
        simp [IsLinkOf, ht]
      · intro a
        rw [k5]
        simp only [scanned, List.takeWhile_cons, ht]
        simp [IsAssetOf, ht]
    | _ =>
      obtain ⟨lnm2, asm2, k1, k2, k3, k4, k5⟩ := ih lnm asm h1 h2
      refine ⟨lnm2, asm2, k1, k2, ?_, ?_, ?_⟩
      · simp only [parseLoop, ht]
        exact k3
      · intro l
        rw [k4]
        simp only [scanned, List.takeWhile_cons, ht]
        simp [IsLinkOf, ht]
      · intro a
        rw [k5]
        simp only [scanned, List.takeWhile_cons, ht]
        simp [IsAssetOf, ht]

theorem parse_spec (lib : Lib) (s : String) (base : URL) :
    List.Sorted (fun a b => a < b) (parse lib s base).1 ∧
    List.Sorted (fun a b => a < b) (parse lib s base).2 ∧
    (∀ l, l ∈ (parse lib s base).1 ↔ ∃ tok ∈ scanned (lib.tokens s), IsLinkOf lib base tok l) ∧
    (∀ a, a ∈ (parse lib s base).2 ↔ ∃ tok ∈ scanned (lib.tokens s), IsAssetOf tok a) := by
  obtain ⟨lnm2, asm2, k1, k2, k3, k4, k5⟩ :=
    parseLoop_spec lib base (lib.tokens s) [] [] List.nodup_nil List.nodup_nil
  unfold parse
  rw [k3]
  refine ⟨sortStrings_strict _ k1, sortStrings_strict _ k2, ?_, ?_⟩
  · intro l
    have h := k4 l
    simp only [List.not_mem_nil, false_or] at h
    exact ((sortStrings_perm lnm2).mem_iff).trans h
  · intro a
    have h := k5 a
    simp only [List.not_mem_nil, false_or] at h
    exact ((sortStrings_perm asm2).mem_iff).trans h

/-! ## The traversal: steps -/

theorem deliver_sound {s s1 : State} {ch : Chan} {v : SiteMap}
    (h : deliver s ch v = some s1) : Deliver s ch v s1 := by
  unfold deliver at h
  cases ch with
  | root =>
    cases hr : s.recv with
    | none =>
      simp only [hr, Option.some.injEq] at h
      subst h
      exact Deliver.root hr
    | some w => simp [hr] at h
  | child j =>
    simp only at h
    split at h
    · next sm n pch hj =>
      simp only [Option.some.injEq] at h
      subst h
      exact Deliver.child hj
    · exact absurd h (by simp)

theorem deliver_complete {s s1 : State} {ch : Chan} {v : SiteMap}
    (h : Deliver s ch v s1) : deliver s ch v = some s1 := by
  cases h with
  | root hr => simp [deliver, hr]
  | child hj => simp [deliver, hj]

theorem step_sound {lib : Lib} {s s1 : State} {i : Nat}
    (h : step lib s i = some s1) : Step lib s i s1 := by
  unfold step at h
  split at h
  · exact absurd h (by simp)
  · next url ch hi =>
    split at h
    · next hm =>
      simp only [Option.some.injEq] at h
      subst h
      exact Step.claimFail hi hm
    · next hm =>
      simp only [Option.some.injEq] at h
      subst h
      exact Step.claimOk hi hm
  · next url ch hi =>
    simp only at h
    split at h
    · next b hf =>
      simp only [Option.some.injEq] at h
      subst h
      exact Step.fetchOk hi hf
    · next b e hf =>
      simp only [Option.some.injEq] at h
      subst h
      exact Step.fetchErr hi hf
  · next url b ch hi =>
    split at h
    · next s2 hd =>
      simp only [Option.some.injEq] at h
      subst h
      exact Step.errSend hi (deliver_sound hd)
    · exact absurd h (by simp)
  · next sm ch hi =>
    split at h
    · next s2 hd =>
      simp only [Option.some.injEq] at h
      subst h
      exact Step.send hi (deliver_sound hd)
    · exact absurd h (by simp)
  · exact absurd h (by simp)
  · exact absurd h (by simp)

theorem step_complete {lib : Lib} {s s1 : State} {i : Nat}
    (h : Step lib s i s1) : step lib s i = some s1 := by
  cases h with
  | claimFail hi hm => simp [step, hi, hm]
  | claimOk hi hm => simp [step, hi, hm]
  | fetchOk hi hf => simp [step, hi, hf]
  | fetchErr hi hf => simp [step, hi, hf]
  | errSend hi hd => simp [step, hi, deliver_complete hd]
  | send hi hd => simp [step, hi, deliver_complete hd]

/-- An invariant of the steps holds after every schedule. -/
theorem run_induction {lib : Lib} (I : State → Prop)
    (hstep : ∀ s i s1, I s → Step lib s i s1 → I s1) :
    ∀ (sched : List Nat) (s s1 : State), I s → run lib s sched = some s1 → I s1 := by
  intro sched
  induction sched with
  | nil =>
    intro s s1 hI h
    simp only [run, Option.some.injEq] at h
    exact h ▸ hI
  | cons i sched ih =>
    intro s s1 hI h
    simp only [run] at h
    cases hs : step lib s i with
    | none => simp [hs] at h
    | some s2 =>
      simp only [hs] at h
      exact ih s2 s1 (hstep s i s2 hI (step_sound hs)) h

theorem sum_map_set {α M : Type} [AddCommMonoid M] (f : α → M) (l : List α) (i : Nat)
    (p x : α) (h : l[i]? = some p) :
    ((l.set i x).map f).sum + f p = (l.map f).sum + f x := by
  induction l generalizing i with
  | nil => simp at h
  | cons a l ih =>
    cases i with
    | zero =>
      simp only [List.getElem?_cons_zero, Option.some.injEq] at h
      subst h
      simp only [List.set_cons_zero, List.map_cons, List.sum_cons]
      abel
    | succ i =>
      simp only [List.getElem?_cons_succ] at h
      simp only [List.set_cons_succ, List.map_cons, List.sum_cons, add_assoc]
      rw [ih i h]

theorem sum_map_set_same {α M : Type} [AddCommMonoid M] (f : α → M) (l : List α) (i : Nat)
    (p x : α) (h : l[i]? = some p) (he : f x = f p) :
    ((l.set i x).map f).sum = (l.map f).sum := by
  induction l generalizing i with
  | nil => simp at h
  | cons a l ih =>
    cases i with
    | zero =>
      simp only [List.getElem?_cons_zero, Option.some.injEq] at h
      subst h
      simp [he]
    | succ i =>
      simp only [List.getElem?_cons_succ] at h
      simp only [List.set_cons_succ, List.map_cons, List.sum_cons]
      rw [ih i h]

theorem getElem?_set_self_of {α : Type} (l : List α) (i : Nat) (p x : α) (h : l[i]? = some p) :
    (l.set i x)[i]? = some x := by
  have hi : i < l.length := by
    by_contra hc
    rw [List.getElem?_eq_none (by omega)] at h
    exact absurd h (by simp)
  simp [List.getElem?_set, hi]

theorem gather_pages (sm v : SiteMap) : (gather sm v).Pages = sm.Pages ++ v.Pages := by
  unfold gather
  split
  · rfl
  · next h =>
    have : v.Pages = [] := by
      cases hv : v.Pages with
      | nil => rfl
      | cons a l => simp [hv] at h
    simp [this]

/-- What a taken send changes: the receiver gets the pages; nothing else. -/
theorem deliver_effect {s s1 : State} {ch : Chan} {v : SiteMap} (h : Deliver s ch v s1) :
    s1.lc = s.lc ∧ s1.net = s.net ∧ s1.procs.length = s.procs.length ∧
    s1.pages = s.pages + (v.Pages : Multiset Page) ∧
    s1.fresh = s.fresh ∧ s1.pending = s.pending ∧ s1.failed = s.failed ∧
    (∀ lib, (s1.procs.map (Proc.weight lib)).sum = (s.procs.map (Proc.weight lib)).sum) ∧
    (∀ c, (s1.procs.map (Proc.sends c)).sum = (s.procs.map (Proc.sends c)).sum) ∧
    (∀ (i : Nat) (p : Proc), s.procs[i]? = some p → p.expect = 0 → s1.procs[i]? = some p) := by
  cases h with
  | root hr =>
    refine ⟨rfl, rfl, rfl, ?_, rfl, rfl, rfl, fun _ => rfl, fun _ => rfl, fun i p hp _ => hp⟩
    simp [State.pages, hr]
  | @child _ j sm n pch hj =>
    refine ⟨rfl, rfl, by simp, ?_, ?_, ?_, ?_, ?_, ?_, ?_⟩
    · have h1 := sum_map_set Proc.held s.procs j _ (.collect (gather sm v) n pch) hj
      simp only [Proc.held, gather_pages] at h1
      simp only [State.pages]
      rw [← Multiset.coe_add] at h1
      have h2 : (List.map Proc.held (s.procs.set j (.collect (gather sm v) n pch))).sum
          = (List.map Proc.held s.procs).sum + (v.Pages : Multiset Page) := by
        apply add_right_cancel (b := (sm.Pages : Multiset Page))
        rw [h1]
        abel
      rw [h2]
      abel
    · exact sum_map_set_same _ _ j _ _ hj rfl
    · exact sum_map_set_same _ _ j _ _ hj rfl
    · exact sum_map_set_same _ _ j _ _ hj rfl
    · intro lib
      exact sum_map_set_same _ _ j _ _ hj rfl
    · intro c
      exact sum_map_set_same _ _ j _ _ hj rfl
    · intro i p hp he
      have hne : j ≠ i := by
        rintro rfl
        rw [hj] at hp
        simp only [Option.some.injEq] at hp
        subst hp
        simp [Proc.expect] at he
      simpa [List.getElem?_set, hne] using hp

theorem sum_singletons {α : Type} (l : List α) :
    (l.map (fun c => ({c} : Multiset α))).sum = (l : Multiset α) := by
  induction l with
  | nil => rfl
  | cons a l ih =>
    simp only [List.map_cons, List.sum_cons, ih]
    rfl

theorem expand_sum {M : Type} [AddCommMonoid M] (f : Proc → M) (lib : Lib) (s : State)
    (i : Nat) (url : URL) (b : String) (ch : Chan) (p : Proc) (h : s.procs[i]? = some p) :
    ((expand lib s i url b ch).procs.map f).sum + f p
      = (s.procs.map f).sum
        + f (.collect ⟨lib.URLString url, [pageFrom lib url b]⟩
              (childURLs lib url (parse lib b url).1).length ch)
        + ((childURLs lib url (parse lib b url).1).map (fun c => f (.start c (.child i)))).sum := by
  simp only [expand, List.map_append, List.sum_append, List.map_map, List.nil_append]
  have h1 := sum_map_set f s.procs i p
    (.collect ⟨lib.URLString url, [pageFrom lib url b]⟩
      (childURLs lib url (parse lib b url).1).length ch) h
  simp only [pageFrom] at h1 ⊢
  rw [add_right_comm, h1]
  rfl

theorem expand_fields (lib : Lib) (s : State) (i : Nat) (url : URL) (b : String) (ch : Chan) :
    (expand lib s i url b ch).lc = s.lc ∧ (expand lib s i url b ch).net = s.net ∧
    (expand lib s i url b ch).recv = s.recv := ⟨rfl, rfl, rfl⟩

/-- What `expand` does for a goroutine that holds no page: one page more,
one pending URL less, the children fresh. -/
theorem expand_moves (lib : Lib) (s : State) (i : Nat) (url : URL) (b : String) (ch : Chan)
    (p : Proc) (h : s.procs[i]? = some p) (hh : p.held = 0) (hf : p.fresh = 0)
    (hp : p.pending = {url}) :
    (expand lib s i url b ch).pages = pageFrom lib url b ::ₘ s.pages ∧
    (expand lib s i url b ch).fresh
      = s.fresh + (childURLs lib url (parse lib b url).1 : List URL) ∧
    s.pending = url ::ₘ (expand lib s i url b ch).pending := by
  refine ⟨?_, ?_, ?_⟩
  · have h1 := expand_sum Proc.held lib s i url b ch p h
    rw [hh, add_zero] at h1
    simp only [Proc.held, List.map_const', List.sum_replicate, smul_zero, add_zero] at h1
    simp only [State.pages, expand_fields, h1]
    rw [← Multiset.singleton_add, ← Multiset.coe_singleton]
    abel
  · have h1 := expand_sum Proc.fresh lib s i url b ch p h
    rw [hf, add_zero] at h1
    simp only [Proc.fresh, add_zero] at h1
    simp only [State.fresh, h1, sum_singletons]
  · have h1 := expand_sum Proc.pending lib s i url b ch p h
    rw [hp] at h1
    simp only [Proc.pending, add_zero, List.map_const', List.sum_replicate, smul_zero] at h1
    simp only [State.pending]
    rw [← h1, ← Multiset.singleton_add]
    abel

theorem le_sum_of_getElem? {α : Type} (f : Proc → Multiset α) (l : List Proc) (i : Nat)
    (p : Proc) (h : l[i]? = some p) : f p ≤ (l.map f).sum := by
  induction l generalizing i with
  | nil => simp at h
  | cons a l ih =>
    cases i with
    | zero =>
      simp only [List.getElem?_cons_zero, Option.some.injEq] at h
      subst h
      simp only [List.map_cons, List.sum_cons]
      exact Multiset.le_add_right _ _
    | succ i =>
      simp only [List.getElem?_cons_succ] at h
      simp only [List.map_cons, List.sum_cons]
      exact le_trans (ih i h) (Multiset.le_add_left _ _)

/-- What replacing goroutine `i` changes in the views. -/
theorem set_views (s t : State) (i : Nat) (p x : Proc) (h : s.procs[i]? = some p)
    (hprocs : t.procs = s.procs.set i x) (hrecv : t.recv = s.recv) :
    t.pages + p.held = s.pages + x.held ∧ t.fresh + p.fresh = s.fresh + x.fresh ∧
    t.pending + p.pending = s.pending + x.pending ∧
    t.failed + p.failed = s.failed + x.failed := by
  refine ⟨?_, ?_, ?_, ?_⟩
  · have h1 := sum_map_set Proc.held s.procs i p x h
    simp only [State.pages, hprocs, hrecv]
    rw [add_right_comm, h1]
    abel
  · simpa only [State.fresh, hprocs] using sum_map_set Proc.fresh s.procs i p x h
  · simpa only [State.pending, hprocs] using sum_map_set Proc.pending s.procs i p x h
  · simpa only [State.failed, hprocs] using sum_map_set Proc.failed s.procs i p x h

theorem step_moves {lib : Lib} {s t : State} {i : Nat} (h : Step lib s i t) :
    Moves lib s t := by
  cases h with
  | claimFail hi hm =>
    rename_i url ch
    obtain ⟨h1, h2, h3, h4⟩ := set_views s
      { s with procs := s.procs.set i (.collect {} 0 ch) } i _ (.collect {} 0 ch) hi rfl rfl
    simp only [Proc.held, Proc.fresh, Proc.pending, Proc.failed, add_zero,
      Multiset.coe_nil] at h1 h2 h3 h4
    refine Moves.claimFail url rfl h1 ?_ h3 h4 hm
    rw [← h2, ← Multiset.singleton_add, add_comm]
  | claimOk hi hm =>
    rename_i url ch
    obtain ⟨h1, h2, h3, h4⟩ := set_views s
      { s with lc := lib.RequestURI url :: s.lc, procs := s.procs.set i (.claimed url ch) }
      i _ (.claimed url ch) hi rfl rfl
    simp only [Proc.held, Proc.fresh, Proc.pending, Proc.failed, add_zero] at h1 h2 h3 h4
    refine Moves.claimOk url rfl h1 ?_ ?_ h4 hm
    · rw [← h2, ← Multiset.singleton_add, add_comm]
    · rw [h3, ← Multiset.singleton_add, add_comm]
  | fetchOk hi hf =>
    rename_i url ch b
    obtain ⟨h1, h2, h3⟩ := expand_moves lib { s with net := lib.URLString url :: s.net }
      i url b ch _ hi rfl rfl rfl
    refine Moves.fetchOk url b rfl h1 h2 h3 ?_ hf
    have h4 := expand_sum Proc.failed lib { s with net := lib.URLString url :: s.net }
      i url b ch _ hi
    simpa [State.failed, Proc.failed] using h4
  | fetchErr hi hf =>
    rename_i url ch b e
    obtain ⟨h1, h2, h3, h4⟩ := set_views s
      { s with net := lib.URLString url :: s.net, procs := s.procs.set i (.errSend url b ch) }
      i _ (.errSend url b ch) hi rfl rfl
    simp only [Proc.held, Proc.fresh, Proc.pending, Proc.failed, add_zero] at h1 h2 h3 h4
    refine Moves.fetchErr url b e rfl h1 h2 ?_ ?_ hf
      (Multiset.singleton_le.mp (le_sum_of_getElem? Proc.pending s.procs i _ hi))
    · exact add_right_cancel h3
    · rw [h4, ← Multiset.singleton_add, add_comm]
  | errSend hi hd =>
    rename_i s1 url ch b
    obtain ⟨d1, d2, d3, d4, d5, d6, d7, d8, d9, d10⟩ := deliver_effect hd
    have hi1 := d10 i _ hi rfl
    obtain ⟨h1, h2, h3⟩ := expand_moves lib s1 i url b ch _ hi1 rfl rfl rfl
    have e0 : ((({} : SiteMap).Pages : List Page) : Multiset Page) = 0 := rfl
    rw [e0, add_zero] at d4
    refine Moves.errSend url b d1 (by rw [h1, d4]) (by rw [h2, d5]) (by rw [← d6, h3]) ?_
    have h4 := expand_sum Proc.failed lib s1 i url b ch _ hi1
    simp only [Proc.failed, add_zero, List.map_const', List.sum_replicate, smul_zero] at h4
    rw [← d7]
    simp only [State.failed]
    rw [← h4, ← Multiset.singleton_add, add_comm]
  | send hi hd =>
    rename_i s1 sm ch
    obtain ⟨d1, d2, d3, d4, d5, d6, d7, d8, d9, d10⟩ := deliver_effect hd
    have hi1 := d10 i _ hi rfl
    obtain ⟨h1, h2, h3, h4⟩ := set_views s1 { s1 with procs := s1.procs.set i .done }
      i _ .done hi1 rfl rfl
    simp only [Proc.held, Proc.fresh, Proc.pending, Proc.failed, add_zero] at h1 h2 h3 h4
    refine Moves.send d1 ?_ (by rw [h2, d5]) (by rw [h3, d6]) (by rw [h4, d7])
    rw [d4] at h1
    exact add_right_cancel h1

theorem pageFrom_fetch (lib : Lib) (u : URL) (b : String) (h : b = (fetch lib u).1) :
    pageFrom lib u b = pageOf lib u := by
  subst h
  rfl

theorem kids_fetch (lib : Lib) (u : URL) (b : String) (h : b = (fetch lib u).1) :
    childURLs lib u (parse lib b u).1 = kids lib u := by
  subst h
  rfl

/-- The account after a page is made for a pending URL. -/
theorem account_grow {lib : Lib} {links0 : List String} {Q : URL → Prop} {seed : URL}
    {s t : State} (hQ : ∀ u c, Q u → c ∈ kids lib u → Q c)
    (h : Account lib links0 Q seed s) (u : URL) (b : String) (hb : b = (fetch lib u).1)
    (hlc : t.lc = s.lc) (hpages : t.pages = pageFrom lib u b ::ₘ s.pages)
    (hfresh : t.fresh = s.fresh + (childURLs lib u (parse lib b u).1 : List URL))
    (hpend : s.pending = u ::ₘ t.pending) (hfail : ∀ ub ∈ t.failed, ub ∈ s.failed) :
    Account lib links0 Q seed t := by
  obtain ⟨L, a1, a2, a3, a4, a4b, a5, a6, a7, a8⟩ := h
  rw [pageFrom_fetch lib u b hb] at hpages
  rw [kids_fetch lib u b hb] at hfresh
  have hsum : (u ::ₘ L) + t.pending = L + s.pending := by
    rw [hpend, Multiset.cons_add, Multiset.add_cons]
  have hu : u ∈ s.pending := by rw [hpend]; exact Multiset.mem_cons_self u _
  refine ⟨u ::ₘ L, ?_, ?_, ?_, ?_, ?_, ?_, ?_, ?_, ?_⟩
  · rw [hpages, a1, Multiset.map_cons]
  · rw [hsum]; exact a2
  · rw [hsum, hlc]; exact a3
  · rw [hsum, hlc]; exact a4
  · rw [hlc]; exact a4b
  · intro v hv c hc
    rw [hlc, hfresh, Multiset.mem_add]
    rcases Multiset.mem_cons.mp hv with rfl | hv
    · exact Or.inr (Or.inr (by simpa using hc))
    · rcases a5 v hv c hc with h1 | h1
      · exact Or.inl h1
      · exact Or.inr (Or.inl h1)
  · intro ub hub
    exact a6 ub (hfail ub hub)
  · intro v hv
    rcases hv with hv | hv | hv
    · rcases Multiset.mem_cons.mp hv with rfl | hv
      · exact a7 _ (Or.inr (Or.inl hu))
      · exact a7 _ (Or.inl hv)
    · exact a7 _ (Or.inr (Or.inl (by rw [hpend]; exact Multiset.mem_cons_of_mem hv)))
    · rw [hfresh, Multiset.mem_add] at hv
      rcases hv with hv | hv
      · exact a7 _ (Or.inr (Or.inr hv))
      · exact hQ u v (a7 _ (Or.inr (Or.inl hu))) (by simpa using hv)
  · rw [hlc, hfresh, Multiset.mem_add]
    rcases a8 with h1 | h1
    · exact Or.inl h1
    · exact Or.inr (Or.inl h1)

/-- The account is an invariant of the steps. -/
theorem account_moves {lib : Lib} {links0 : List String} {Q : URL → Prop} {seed : URL}
    {s t : State} (hQ : ∀ u c, Q u → c ∈ kids lib u → Q c)
    (h : Account lib links0 Q seed s) (m : Moves lib s t) :
    Account lib links0 Q seed t := by
  cases m with
  | claimFail u hlc hpages hfresh hpend hfail hm =>
    obtain ⟨L, a1, a2, a3, a4, a4b, a5, a6, a7, a8⟩ := h
    have hmem : ∀ c, c ∈ s.fresh → lib.RequestURI c ∈ s.lc ∨ c ∈ t.fresh := by
      intro c hc
      rw [hfresh] at hc
      rcases Multiset.mem_cons.mp hc with rfl | hc
      · exact Or.inl hm
      · exact Or.inr hc
    refine ⟨L, ?_, ?_, ?_, ?_, ?_, ?_, ?_, ?_, ?_⟩
    · rw [hpages, a1]
    · rw [hpend]; exact a2
    · rw [hpend, hlc]; exact a3
    · rw [hpend, hlc]; exact a4
    · rw [hlc]; exact a4b
    · intro v hv c hc
      rw [hlc]
      rcases a5 v hv c hc with h1 | h1
      · exact Or.inl h1
      · exact hmem c h1
    · rw [hfail]; exact a6
    · intro v hv
      rw [hpend] at hv
      rcases hv with hv | hv | hv
      · exact a7 _ (Or.inl hv)
      · exact a7 _ (Or.inr (Or.inl hv))
      · exact a7 _ (Or.inr (Or.inr (by rw [hfresh]; exact Multiset.mem_cons_of_mem hv)))
    · rw [hlc]
      rcases a8 with h1 | h1
      · exact Or.inl h1
      · exact hmem seed h1
  | claimOk u hlc hpages hfresh hpend hfail hm =>
    obtain ⟨L, a1, a2, a3, a4, a4b, a5, a6, a7, a8⟩ := h
    have hmem : ∀ c, c ∈ s.fresh → lib.RequestURI c ∈ t.lc ∨ c ∈ t.fresh := by
      intro c hc
      rw [hfresh] at hc
      rcases Multiset.mem_cons.mp hc with rfl | hc
      · exact Or.inl (by rw [hlc]; exact List.mem_cons_self _ _)
      · exact Or.inr hc
    have hsum : L + t.pending = u ::ₘ (L + s.pending) := by
      rw [hpend, Multiset.add_cons]
    have hnew : lib.RequestURI u ∉ (L + s.pending).map lib.RequestURI := by
      intro hc
      obtain ⟨v, hv, hvu⟩ := Multiset.mem_map.mp hc
      exact hm (hvu ▸ (a3 v hv).1)
    refine ⟨L, ?_, ?_, ?_, ?_, ?_, ?_, ?_, ?_, ?_⟩
    · rw [hpages, a1]
    · rw [hsum, Multiset.map_cons]
      exact Multiset.nodup_cons.mpr ⟨hnew, a2⟩
    · intro v hv
      rw [hsum] at hv
      rw [hlc]
      rcases Multiset.mem_cons.mp hv with rfl | hv
      · exact ⟨List.mem_cons_self _ _, fun hc => hm (a4b _ hc)⟩
      · exact ⟨List.mem_cons_of_mem _ (a3 v hv).1, (a3 v hv).2⟩
    · intro x hx
      rw [hlc] at hx
      rw [hsum, Multiset.map_cons]
      rcases List.mem_cons.mp hx with rfl | hx
      · exact Or.inr (Multiset.mem_cons_self _ _)
      · rcases a4 x hx with h1 | h1
        · exact Or.inl h1
        · exact Or.inr (Multiset.mem_cons_of_mem h1)
    · intro x hx
      rw [hlc]
      exact List.mem_cons_of_mem _ (a4b x hx)
    · intro v hv c hc
      rcases a5 v hv c hc with h1 | h1
      · exact Or.inl (by rw [hlc]; exact List.mem_cons_of_mem _ h1)
      · exact hmem c h1
    · rw [hfail]; exact a6
    · intro v hv
      have hu : u ∈ s.fresh := by rw [hfresh]; exact Multiset.mem_cons_self _ _
      rcases hv with hv | hv | hv
      · exact a7 _ (Or.inl hv)
      · rw [hpend] at hv
        rcases Multiset.mem_cons.mp hv with rfl | hv
        · exact a7 _ (Or.inr (Or.inr hu))
        · exact a7 _ (Or.inr (Or.inl hv))
      · exact a7 _ (Or.inr (Or.inr (by rw [hfresh]; exact Multiset.mem_cons_of_mem hv)))
    · rcases a8 with h1 | h1
      · exact Or.inl (by rw [hlc]; exact List.mem_cons_of_mem _ h1)
      · exact hmem seed h1
  | fetchOk u b hlc hpages hfresh hpend hfail hf =>
    refine account_grow hQ h u b (by rw [hf]) hlc hpages hfresh hpend ?_
    intro ub hub
    rwa [hfail] at hub
  | fetchErr u b e hlc hpages hfresh hpend hfail hf _ =>
    obtain ⟨L, a1, a2, a3, a4, a4b, a5, a6, a7, a8⟩ := h
    refine ⟨L, ?_, ?_, ?_, ?_, ?_, ?_, ?_, ?_, ?_⟩
    · rw [hpages, a1]
    · rw [hpend]; exact a2
    · rw [hpend, hlc]; exact a3
    · rw [hpend, hlc]; exact a4
    · rw [hlc]; exact a4b
    · rw [hlc, hfresh]; exact a5
    · intro ub hub
      rw [hfail] at hub
      rcases Multiset.mem_cons.mp hub with rfl | hub
      · simp [hf]
      · exact a6 ub hub
    · rw [hpend, hfresh]; exact a7
    · rw [hlc, hfresh]; exact a8
  | errSend u b hlc hpages hfresh hpend hfail =>
    have hb : b = (fetch lib u).1 := by
      obtain ⟨L, a1, a2, a3, a4, a4b, a5, a6, a7, a8⟩ := h
      exact a6 (u, b) (by rw [hfail]; exact Multiset.mem_cons_self _ _)
    refine account_grow hQ h u b hb hlc hpages hfresh hpend ?_
    intro ub hub
    rw [hfail]
    exact Multiset.mem_cons_of_mem hub
  | send hlc hpages hfresh hpend hfail =>
    obtain ⟨L, a1, a2, a3, a4, a4b, a5, a6, a7, a8⟩ := h
    refine ⟨L, ?_, ?_, ?_, ?_, ?_, ?_, ?_, ?_, ?_⟩
    · rw [hpages, a1]
    · rw [hpend]; exact a2
    · rw [hpend, hlc]; exact a3
    · rw [hpend, hlc]; exact a4
    · rw [hlc]; exact a4b
    · rw [hlc, hfresh]; exact a5
    · rw [hfail]; exact a6
    · rw [hpend, hfresh]; exact a7
    · rw [hlc, hfresh]; exact a8

/-! ## The traversal: channels and termination -/

theorem Proc.expect_eqs :
    (∀ u ch, (Proc.start u ch).expect = 0) ∧ (∀ u ch, (Proc.claimed u ch).expect = 0) ∧
    (∀ u b ch, (Proc.errSend u b ch).expect = 0) ∧
    (∀ sm n ch, (Proc.collect sm n ch).expect = n) ∧ Proc.done.expect = 0 :=
  ⟨fun _ _ => rfl, fun _ _ => rfl, fun _ _ _ => rfl, fun _ _ _ => rfl, rfl⟩

theorem exists_perm_map {α β : Type} (f : α → β) {l l2 : List β} (h : l.Perm l2) :
    ∀ L : List α, L.map f = l → ∃ L2 : List α, L.Perm L2 ∧ L2.map f = l2 := by
  induction h with
  | nil =>
    intro L hL
    exact ⟨L, List.Perm.refl _, hL⟩
  | cons x _ ih =>
    intro L hL
    cases L with
    | nil => simp at hL
    | cons a L =>
      simp only [List.map_cons, List.cons.injEq] at hL
      obtain ⟨L2, h1, h2⟩ := ih L hL.2
      exact ⟨a :: L2, h1.cons a, by simp [h2, hL.1]⟩
  | swap x y l =>
    intro L hL
    cases L with
    | nil => simp at hL
    | cons a L =>
      cases L with
      | nil => simp at hL
      | cons b L =>
        simp only [List.map_cons, List.cons.injEq] at hL
        exact ⟨b :: a :: L, List.Perm.swap b a L, by simp [hL.1, hL.2.1, hL.2.2]⟩
  | trans _ _ ih1 ih2 =>
    intro L hL
    obtain ⟨L2, h1, h2⟩ := ih1 L hL
    obtain ⟨L3, h3, h4⟩ := ih2 L2 h2
    exact ⟨L3, h1.trans h3, h4⟩

/-- The pages `Crawl` received are the pages of URLs with distinct
identifiers, recorded in the cache during this traversal. -/
theorem account_received {lib : Lib} {links0 : List String} {Q : URL → Prop} {seed : URL}
    {s : State} {sm : SiteMap} (h : Account lib links0 Q seed s) (hr : s.recv = some sm) :
    ∃ Ls : List URL, (Ls.map lib.RequestURI).Nodup ∧ sm.Pages = Ls.map (pageOf lib) ∧
      ∀ u ∈ Ls, lib.RequestURI u ∈ s.lc ∧ lib.RequestURI u ∉ links0 ∧ Q u := by
  obtain ⟨L, a1, a2, a3, a4, a4b, a5, a6, a7, a8⟩ := h
  obtain ⟨Ll, rfl⟩ : ∃ Ll : List URL, (Ll : Multiset URL) = L := Quotient.exists_rep L
  obtain ⟨Hl, hH⟩ : ∃ Hl : List Page, (Hl : Multiset Page) = (s.procs.map Proc.held).sum :=
    Quotient.exists_rep _
  simp only [State.pages, hr, Option.map_some', Option.getD_some, ← hH] at a1
  have hperm : (Ll.map (pageOf lib)).Perm (Hl ++ sm.Pages) := by
    have : ((Hl ++ sm.Pages : List Page) : Multiset Page) = ((Ll.map (pageOf lib) : List Page) : Multiset Page) := by
      rw [← Multiset.coe_add]
      exact a1
    exact (Multiset.coe_eq_coe.mp this).symm
  obtain ⟨L2, h1, h2⟩ := exists_perm_map (pageOf lib) hperm Ll rfl
  obtain ⟨l1, l2, h3, h4, h5⟩ := List.map_eq_append_iff.mp h2
  subst h3
  have hnd : ((Ll.map lib.RequestURI : List String) : Multiset String).Nodup := by
    refine Multiset.nodup_of_le ?_ a2
    rw [Multiset.map_add]
    exact Multiset.le_add_right _ _
  have hnd2 : ((l1 ++ l2).map lib.RequestURI).Nodup :=
    ((h1.map lib.RequestURI).nodup_iff).mp (Multiset.coe_nodup.mp hnd)
  refine ⟨l2, ?_, h5.symm, ?_⟩
  · rw [List.map_append] at hnd2
    exact hnd2.of_append_right
  · intro u hu
    have hu2 : u ∈ (Ll : Multiset URL) :=
      Multiset.mem_coe.mpr (h1.mem_iff.mpr (List.mem_append_right _ hu))
    exact ⟨(a3 u (Multiset.mem_add.mpr (Or.inl hu2))).1,
      (a3 u (Multiset.mem_add.mpr (Or.inl hu2))).2, a7 u (Or.inl hu2)⟩

theorem account_spawn (lib : Lib) (links net : List String) (Q : URL → Prop) (seed : URL)
    (hQ : Q seed) : Account lib links Q seed (spawn links net seed) := by
  refine ⟨0, ?_, ?_, ?_, ?_, ?_, ?_, ?_, ?_, ?_⟩
  · rfl
  · simp [State.pending, Crawler.spawn, Proc.pending]
  · simp [State.pending, Crawler.spawn, Proc.pending]
  · intro x hx
    exact Or.inl hx
  · intro x hx
    exact hx
  · simp
  · simp [State.failed, Crawler.spawn, Proc.failed]
  · intro u hu
    simp only [Multiset.not_mem_zero, false_or, State.pending, State.fresh, Crawler.spawn,
      List.map_cons, List.map_nil, List.sum_cons, List.sum_nil, Proc.pending, Proc.fresh,
      add_zero, Multiset.mem_singleton] at hu
    exact hu ▸ hQ
  · right
    simp [State.fresh, Crawler.spawn, Proc.fresh]

/-- The account holds in every process a traversal comes to. -/
theorem account_run (lib : Lib) (links net : List String) (seed : URL) (sched : List Nat)
    (s : State) (h : run lib (spawn links net seed) sched = some s) :
    Account lib links (Reach lib seed) seed s :=
  run_induction (Account lib links (Reach lib seed) seed)
    (fun _ _ _ hA hst => account_moves (fun _ _ hu hc => Reach.link hu hc) hA (step_moves hst))
    sched _ s (account_spawn lib links net _ seed Reach.seed) h

theorem Crawl_cases {lib : Lib} {links net : List String} {url : URL} {sched : List Nat}
    {sm : SiteMap} {err : Option String} {s : State}
    (h : Crawl lib links net url sched = some (sm, err, s)) :
    ((url.Host = "" ∨ url.Path = "") ∧ sm = {} ∧ err ≠ none ∧
        s = { lc := links, net := net, procs := [], recv := none }) ∨
    (url.Host ≠ "" ∧ url.Path ≠ "" ∧ err = none ∧
        run lib (spawn links net url) sched = some s ∧ s.recv = some sm) := by
  unfold Crawl at h
  split at h
  · next hh =>
    simp only [Option.some.injEq, Prod.mk.injEq] at h
    obtain ⟨h1, h2, h3⟩ := h
    exact Or.inl ⟨Or.inl hh, h1.symm, by simp [← h2], h3.symm⟩
  · next hh =>
    split at h
    · next hp =>
      simp only [Option.some.injEq, Prod.mk.injEq] at h
      obtain ⟨h1, h2, h3⟩ := h
      exact Or.inl ⟨Or.inr hp, h1.symm, by simp [← h2], h3.symm⟩
    · next hp =>
      right
      split at h
      · next s2 hrun =>
        split at h
        · next sm2 hrecv =>
          simp only [Option.some.injEq, Prod.mk.injEq] at h
          obtain ⟨h1, h2, h3⟩ := h
          subst h1 h3
          exact ⟨hh, hp, h2.symm, hrun, hrecv⟩
        · exact absurd h (by simp)
      · exact absurd h (by simp)

/-- The pages `Crawl` returns are the pages of URLs with distinct identifiers,
reachable from the seed and not in the cache before the call. -/
theorem Crawl_account {lib : Lib} {links net : List String} {url : URL} {sched : List Nat}
    {sm : SiteMap} {err : Option String} {s : State}
    (h : Crawl lib links net url sched = some (sm, err, s)) :
    ∃ L : List URL, (L.map lib.RequestURI).Nodup ∧ sm.Pages = L.map (pageOf lib) ∧
      ∀ u ∈ L, Reach lib url u ∧ lib.RequestURI u ∉ links := by
  rcases Crawl_cases h with ⟨_, h2, _, _⟩ | ⟨_, _, _, hrun, hrecv⟩
  · subst h2
    exact ⟨[], List.nodup_nil, rfl, by simp⟩
  · obtain ⟨L, h1, h2, h3⟩ := account_received (account_run lib links net url sched s hrun) hrecv
    exact ⟨L, h1, h2, fun u hu => ⟨(h3 u hu).2.2, (h3 u hu).2.1⟩⟩

theorem lc_grows {lib : Lib} {s t : State} (m : Moves lib s t) : ∀ x ∈ s.lc, x ∈ t.lc := by
  intro x hx
  cases m with
  | claimFail u hlc => rw [hlc]; exact hx
  | claimOk u hlc => rw [hlc]; exact List.mem_cons_of_mem _ hx
  | fetchOk u b hlc => rw [hlc]; exact hx
  | fetchErr u b e hlc => rw [hlc]; exact hx
  | errSend u b hlc => rw [hlc]; exact hx
  | send hlc => rw [hlc]; exact hx

/-- The identifier of the seed is in the cache from the first step on. -/
theorem seed_recorded (lib : Lib) (links net : List String) (seed : URL) (sched : List Nat)
    (s : State) (h : run lib (spawn links net seed) sched = some s) :
    s = spawn links net seed ∨ lib.RequestURI seed ∈ s.lc := by
  refine run_induction (fun s => s = spawn links net seed ∨ lib.RequestURI seed ∈ s.lc)
    ?_ sched _ s (Or.inl rfl) h
  intro s i t hI hst
  right
  rcases hI with rfl | hI
  · have h0 : ∀ p, (spawn links net seed).procs[i]? = some p → p = .start seed .root := by
      intro p hp
      cases i with
      | zero => simpa [spawn] using hp.symm
      | succ i => simp [spawn] at hp
    cases hst with
    | claimFail hi hm =>
      have := h0 _ hi
      simp only [Proc.start.injEq] at this
      rw [← this.1]
      exact hm
    | claimOk hi hm =>
      have := h0 _ hi
      simp only [Proc.start.injEq] at this
      rw [← this.1]
      exact List.mem_cons_self _ _
    | fetchOk hi hf => exact absurd (h0 _ hi) (by simp)
    | fetchErr hi hf => exact absurd (h0 _ hi) (by simp)
    | errSend hi hd => exact absurd (h0 _ hi) (by simp)
    | send hi hd => exact absurd (h0 _ hi) (by simp)
  · exact lc_grows (step_moves hst) _ hI

/-- A traversal whose seed is in the cache already: the goroutine sends the
empty site map and returns, without a fetch. -/
theorem visited_run (lib : Lib) (links net : List String) (seed : URL)
    (hv : lib.RequestURI seed ∈ links) (sched : List Nat) (s : State)
    (h : run lib (spawn links net seed) sched = some s) :
    s = spawn links net seed ∨
    s = { lc := links, net := net, procs := [.collect {} 0 .root], recv := none } ∨
    s = { lc := links, net := net, procs := [.done], recv := some {} } := by
  refine run_induction (fun s => s = spawn links net seed ∨
    s = { lc := links, net := net, procs := [.collect {} 0 .root], recv := none } ∨
    s = { lc := links, net := net, procs := [.done], recv := some {} })
    ?_ sched _ s (Or.inl rfl) h
  intro s i t hI hst
  have hstep := step_complete hst
  rcases hI with rfl | rfl | rfl
  · cases i with
    | zero =>
      simp only [step, spawn, List.getElem?_cons_zero, hv, if_true, Option.some.injEq] at hstep
      exact Or.inr (Or.inl hstep.symm)
    | succ i => simp [step, spawn] at hstep
  · cases i with
    | zero =>
      simp only [step, deliver, List.getElem?_cons_zero, Option.some.injEq] at hstep
      exact Or.inr (Or.inr hstep.symm)
    | succ i => simp [step] at hstep
  · cases i with
    | zero => simp [step] at hstep
    | succ i => simp [step] at hstep

set_option maxRecDepth 100000

/-! ## Properties of the crawler -/

/-- C1: `Crawl` returns an error exactly for a URL without host or without
path.  For such a URL it returns, under every schedule, the zero site map (no
pages) with an error, and the process is left as it was: no request was made
and no goroutine started.  For a URL with host and path the error is nil
whenever `Crawl` returns, and when every fetch fails `Crawl` still returns,
with a nil error and the empty site map. -/
theorem Crawl_error_iff_invalid (lib : Lib) (links net : List String) (url : URL) :
    ((∃ sched sm e s, Crawl lib links net url sched = some (sm, some e, s))
        ↔ (url.Host = "" ∨ url.Path = "")) ∧
    ((url.Host = "" ∨ url.Path = "") → ∀ sched, ∃ e,
        Crawl lib links net url sched
          = some ({}, some e, { lc := links, net := net, procs := [], recv := none })) ∧
    (∀ sched sm e s, Crawl lib links net url sched = some (sm, some e, s) →
        sm.Pages = [] ∧ s.net = net ∧ s.procs = []) ∧
    ((url.Host ≠ "" ∧ url.Path ≠ "") → (∀ u, (fetch lib u).2 ≠ none) →
        ∃ sched s, Crawl lib links net url sched = some ({}, none, s)) := by
  have hinv : (url.Host = "" ∨ url.Path = "") → ∀ sched, ∃ e,
      Crawl lib links net url sched
        = some ({}, some e, { lc := links, net := net, procs := [], recv := none }) := by
    intro h sched
    by_cases hh : url.Host = ""
    · exact ⟨"crawler: host missing from URL", by simp [Crawl, hh]⟩
    · have hp : url.Path = "" := h.resolve_left hh
      exact ⟨"crawler: path missing from URL ", by simp [Crawl, hh, hp]⟩
  refine ⟨⟨?_, ?_⟩, hinv, ?_, ?_⟩
  · rintro ⟨sched, sm, e, s, h⟩
    rcases Crawl_cases h with ⟨h1, _⟩ | ⟨_, _, h3, _⟩
    · exact h1
    · exact absurd h3 (by simp)
  · intro h
    obtain ⟨e, he⟩ := hinv h []
    exact ⟨[], _, e, _, he⟩
  · intro sched sm e s h
    rcases Crawl_cases h with ⟨_, h2, _, h4⟩ | ⟨_, _, h3, _⟩
    · subst h2 h4
      exact ⟨rfl, rfl, rfl⟩
    · exact absurd h3 (by simp)
  · rintro ⟨hh, hp⟩ hfail
    obtain ⟨b, e, hf⟩ : ∃ b e, fetch lib url = (b, some e) := by
      have := hfail url
      cases h2 : (fetch lib url).2 with
      | none => exact absurd h2 this
      | some e => exact ⟨(fetch lib url).1, e, by rw [← h2]⟩
    by_cases hv : lib.RequestURI url ∈ links
    · refine ⟨[0, 0], ?_⟩
      simp [Crawl, hh, hp, run, step, spawn, hv, deliver]
    · refine ⟨[0, 0, 0], ?_⟩
      simp [Crawl, hh, hp, run, step, spawn, hv, deliver, hf, expand]

/-- C1, at concrete inputs: a URL without host, a URL without path, and a
valid URL on a site where every request fails. -/
theorem Crawl_error_iff_invalid_witness :
    (∃ e, Crawl downSite.lib [] [] noHostURL [0, 0]
          = some ({}, some e, { lc := [], net := [], procs := [], recv := none })) ∧
    (∃ e, Crawl downSite.lib [] [] (testURL "" "") [0, 0]
          = some ({}, some e, { lc := [], net := [], procs := [], recv := none })) ∧
    (∃ sched s, Crawl downSite.lib [] [] (testURL "/" "") sched = some ({}, none, s)) :=
  ⟨(Crawl_error_iff_invalid downSite.lib [] [] _).2.1 (Or.inl rfl) [0, 0],
   (Crawl_error_iff_invalid downSite.lib [] [] _).2.1 (Or.inr rfl) [0, 0],
   (Crawl_error_iff_invalid downSite.lib [] [] (testURL "/" "")).2.2.2
     ⟨by decide, by decide⟩ (fun u => by simp [fetch, downSite, Site.lib])⟩

theorem pageOf_sorted (lib : Lib) (u : URL) :
    List.Sorted (fun a b : String => a < b) (pageOf lib u).Links ∧
    List.Sorted (fun a b : String => a < b) (pageOf lib u).Assets :=
  ⟨(parse_spec lib _ u).1, (parse_spec lib _ u).2.1⟩

/-- C3: both results of `parse` are strictly increasing in the lexicographic
order of strings, so without repeated entry, for every content and base URL
(the empty and the one-element result included); hence every page a traversal
builds, and every page of the site map `Crawl` returns, has strictly
increasing links and assets. -/
theorem parse_strictly_increasing (lib : Lib) :
    (∀ (s : String) (base : URL),
        List.Sorted (fun a b : String => a < b) (parse lib s base).1 ∧
        List.Sorted (fun a b : String => a < b) (parse lib s base).2 ∧
        (parse lib s base).1.Nodup ∧ (parse lib s base).2.Nodup) ∧
    (∀ (links net : List String) (url : URL) (sched : List Nat) (st : State),
        run lib (spawn links net url) sched = some st →
        ∀ pg ∈ st.pages,
          List.Sorted (fun a b : String => a < b) pg.Links ∧
          List.Sorted (fun a b : String => a < b) pg.Assets) ∧
    (∀ (links net : List String) (url : URL) (sched : List Nat) (sm : SiteMap)
        (err : Option String) (st : State),
        Crawl lib links net url sched = some (sm, err, st) →
        ∀ pg ∈ sm.Pages,
          List.Sorted (fun a b : String => a < b) pg.Links ∧
          List.Sorted (fun a b : String => a < b) pg.Assets) := by
  refine ⟨?_, ?_, ?_⟩
  · intro s base
    have h := parse_spec lib s base
    exact ⟨h.1, h.2.1, h.1.nodup, h.2.1.nodup⟩
  · intro links net url sched st hrun pg hpg
    obtain ⟨L, a1, _⟩ := account_run lib links net url sched st hrun
    rw [a1] at hpg
    obtain ⟨u, _, rfl⟩ := Multiset.mem_map.mp hpg
    exact pageOf_sorted lib u
  · intro links net url sched sm err st h pg hpg
    obtain ⟨L, _, h2, _⟩ := Crawl_account h
    rw [h2] at hpg
    obtain ⟨u, _, rfl⟩ := List.mem_map.mp hpg
    exact pageOf_sorted lib u

/-- C3, on the cycle of three pages: the pages `Crawl` returns there have
strictly increasing links and assets. -/
theorem parse_strictly_increasing_witness :
    ∃ sm err st, Crawl cycleSite.lib [] [] (testURL "/a" "") [0, 0, 1, 1, 2, 2, 3, 3, 2, 1, 0]
        = some (sm, err, st) ∧ sm.Pages.length = 3 ∧
      ∀ pg ∈ sm.Pages,
        List.Sorted (fun a b : String => a < b) pg.Links ∧
        List.Sorted (fun a b : String => a < b) pg.Assets := by
  have hsome : ((Crawl cycleSite.lib [] [] (testURL "/a" "")
      [0, 0, 1, 1, 2, 2, 3, 3, 2, 1, 0]).map (fun r => r.1.Pages.length)) = some 3 := by
    decide
  obtain ⟨⟨sm, err, st⟩, h, hlen⟩ := Option.map_eq_some'.mp hsome
  exact ⟨sm, err, st, h, hlen,
    (parse_strictly_increasing cycleSite.lib).2.2 [] [] _ _ sm err st h⟩

/-- C4: the links `parse` returns are exactly the canonical identifiers
(`RequestURI`) of the anchors of the document, start tags `a` with a non-empty
`href`, whose reference resolves against the base to a URL with the host of
the base and an identifier other than that of the base.  So the identifier of
the base is never among the links, and an anchor that resolves to another
host adds no entry. -/
theorem parse_links_same_host (lib : Lib) (s : String) (base : URL) :
    (∀ l, l ∈ (parse lib s base).1 ↔
        ∃ tok ∈ scanned (lib.tokens s), tok.tt = .StartTagToken ∧ tok.name = atag ∧
          ∃ av u, tok.attr.lookup href = some av ∧ av ≠ "" ∧ lib.Parse base av = some u ∧
            u.Host = base.Host ∧ lib.RequestURI u ≠ lib.RequestURI base ∧
            l = lib.RequestURI u) ∧
    lib.RequestURI base ∉ (parse lib s base).1 ∧
    (∀ (tok : Token) (lnm asm : List String), tok.name = atag →
        (∀ u, lib.Parse base (attr tok.tt href tok.attr) = some u → u.Host ≠ base.Host) →
        parseTag lib base tok lnm asm = (lnm, asm)) := by
  have h := (parse_spec lib s base).2.2.1
  refine ⟨h, ?_, ?_⟩
  · intro hc
    obtain ⟨tok, _, _, _, av, u, _, _, _, _, h5, h6⟩ := (h _).mp hc
    exact h5 h6.symm
  · intro tok lnm asm hn hu
    have hat : attrsAt atag = href := by decide
    have hne : atag ≠ "" := by decide
    have hT : TagName tok = (atag, !tok.attr.isEmpty) ∨ TagName tok = ("", false) := by
      unfold TagName
      rw [hn]
      simp only [ne_eq, hne, not_false_eq_true, if_true]
      cases tok.tt <;> simp
    unfold parseTag
    rcases hT with hT | hT
    · rw [hT]
      simp only [hat, if_true]
      split
      · split
        · split
          · next u hp =>
            split
            · next hc => exact absurd hc.1 (hu u hp)
            · rfl
          · rfl
        · rfl
      · rfl
    · rw [hT]
      simp

/-- C4, on a document with a link to the page itself, a link to another page
and a link to another host: the link to the other page is the only entry. -/
theorem parse_links_same_host_witness :
    (parse linkSite.lib
        "<a href=\"/\">x</a><a href=\"/foo\">x</a><a href=\"http://fake.com/users\">x</a>"
        (testURL "/" "")).1 = ["/foo"] ∧
    linkSite.lib.RequestURI (testURL "/" "")
      ∉ (parse linkSite.lib
          "<a href=\"/\">x</a><a href=\"/foo\">x</a><a href=\"http://fake.com/users\">x</a>"
          (testURL "/" "")).1 ∧
    parseTag linkSite.lib (testURL "/" "")
        ⟨.StartTagToken, "a", [("href", "http://fake.com/users")]⟩ ["/foo"] []
      = (["/foo"], []) :=
  ⟨by decide,
   (parse_links_same_host linkSite.lib _ (testURL "/" "")).2.1,
   (parse_links_same_host linkSite.lib "" (testURL "/" "")).2.2
     ⟨.StartTagToken, "a", [("href", "http://fake.com/users")]⟩ ["/foo"] [] rfl
     (fun u hu => by
       have h3 : linkSite.lib.Parse (testURL "/" "")
           (attr .StartTagToken href [("href", "http://fake.com/users")]) = some fakeURL := by
         decide
       have h2 : u = fakeURL := (Option.some.inj (h3.symm.trans hu)).symm
       subst h2
       decide)⟩

/-- C5, as stated, fails, on the document
`<img src=""><img src="/i.png"/><script src="http://cdn.test/b.js">`: its
first `img` tag has a `src` attribute, with the empty value, and that value is
not among the assets; its second `img` tag, written self-closing, has the
`src` attribute `/i.png`, and that value is not among the assets either.  The
script on another host is the only asset. -/
theorem empty_or_self_closing_not_an_asset :
    (⟨.StartTagToken, "img", [("src", "")]⟩ : Token) ∈ assetSite.lib.tokens assetDoc ∧
    "" ∉ (parse assetSite.lib assetDoc (testURL "/" "")).2 ∧
    (⟨.SelfClosingTagToken, "img", [("src", "/i.png")]⟩ : Token)
        ∈ assetSite.lib.tokens assetDoc ∧
    "/i.png" ∉ (parse assetSite.lib assetDoc (testURL "/" "")).2 ∧
    (parse assetSite.lib assetDoc (testURL "/" "")).2 = ["http://cdn.test/b.js"] := by
  decide

/-- C5, amended: the assets of `parse` are exactly the non-empty values of
the attribute the table names (`src`, `src`, `href`; the first attribute of
that name) on the start tags `script`, `img` and `link` the scanner comes
to.  Every such value is an asset as it stands, whatever the base URL and
whatever host it names; every asset is such a value, so the empty string is
never an asset.  A start tag whose attribute of that name is missing or empty
leaves both maps as they are, and a self-closing tag is passed over by the
loop.  The table has exactly the four entries `a` to `href`, `script` to
`src`, `img` to `src`, `link` to `href`. -/
theorem parse_assets_verbatim (lib : Lib) (s : String) (base : URL) :
    (∀ tok ∈ scanned (lib.tokens s), tok.tt = .StartTagToken →
        (tok.name = stag ∨ tok.name = itag ∨ tok.name = ltag) →
        ∀ a, tok.attr.lookup (attrsAt tok.name) = some a → a ≠ "" →
          a ∈ (parse lib s base).2) ∧
    (∀ a ∈ (parse lib s base).2,
        ∃ tok ∈ scanned (lib.tokens s), tok.tt = .StartTagToken ∧
          (tok.name = stag ∨ tok.name = itag ∨ tok.name = ltag) ∧
          tok.attr.lookup (attrsAt tok.name) = some a ∧ a ≠ "") ∧
    "" ∉ (parse lib s base).2 ∧
    (∀ (tok : Token) (lnm asm : List String), tok.tt = .StartTagToken →
        (tok.attr.lookup (attrsAt tok.name) = none ∨
          tok.attr.lookup (attrsAt tok.name) = some "") →
        parseTag lib base tok lnm asm = (lnm, asm)) ∧
    (∀ (tok : Token) (z : List Token) (lnm asm : List String),
        tok.tt = .SelfClosingTagToken →
        parseLoop lib base (tok :: z) lnm asm = parseLoop lib base z lnm asm) ∧
    attrs = [("a", "href"), ("script", "src"), ("img", "src"), ("link", "href")] ∧
    attrs.length = 4 ∧
    attrsAt "a" = "href" ∧ attrsAt "script" = "src" ∧ attrsAt "img" = "src" ∧
    attrsAt "link" = "href" := by
  have h := (parse_spec lib s base).2.2.2
  refine ⟨?_, ?_, ?_, ?_, ?_, rfl, rfl, by decide, by decide, by decide, by decide⟩
  · intro tok htok htt hname a hattr ha
    exact (h a).mpr ⟨tok, htok, htt, hname, hattr, ha⟩
  · intro a ha
    exact (h a).mp ha
  · intro hc
    obtain ⟨tok, _, _, _, _, h4⟩ := (h "").mp hc
    exact h4 rfl
  · intro tok lnm asm htt hattr
    have hav : (tok.attr.lookup (attrsAt tok.name)).getD "" = "" := by
      rcases hattr with h1 | h1 <;> rw [h1] <;> rfl
    unfold parseTag TagName
    by_cases hn : tok.name = ""
    · simp [hn]
    · simp [hn, htt, attr_start, hav]
  · intro tok z lnm asm htt
    simp only [parseLoop, htt]

/-- C5, amended, on the document with the empty `src`, the self-closing image
and the script on another host. -/
theorem parse_assets_verbatim_witness :
    "http://cdn.test/b.js" ∈ (parse assetSite.lib assetDoc (testURL "/" "")).2 ∧
    "" ∉ (parse assetSite.lib assetDoc (testURL "/" "")).2 ∧
    parseTag assetSite.lib (testURL "/" "") ⟨.StartTagToken, "img", [("src", "")]⟩ [] []
      = ([], []) ∧
    parseLoop assetSite.lib (testURL "/" "")
        [⟨.SelfClosingTagToken, "img", [("src", "/i.png")]⟩] [] []
      = parseLoop assetSite.lib (testURL "/" "") [] [] [] :=
  ⟨(parse_assets_verbatim assetSite.lib assetDoc (testURL "/" "")).1
      ⟨.StartTagToken, "script", [("src", "http://cdn.test/b.js")]⟩ (by decide) rfl
      (Or.inl rfl) "http://cdn.test/b.js" (by decide) (by decide),
   (parse_assets_verbatim assetSite.lib assetDoc (testURL "/" "")).2.2.1,
   (parse_assets_verbatim assetSite.lib assetDoc (testURL "/" "")).2.2.2.1
      ⟨.StartTagToken, "img", [("src", "")]⟩ [] [] rfl (Or.inr (by decide)),
   (parse_assets_verbatim assetSite.lib assetDoc (testURL "/" "")).2.2.2.2.1
      ⟨.SelfClosingTagToken, "img", [("src", "/i.png")]⟩ [] [] [] rfl⟩

/-- C7, as stated, fails: on the site whose page `/` links to `/?x=1`, `Crawl`
returns two pages with the path `/`. -/
theorem two_pages_same_path :
    (Crawl querySite.lib [] [] (testURL "/" "") [0, 0, 1, 1, 1, 0]).map
        (fun r => r.1.Pages.map (fun pg => (pg.Path, pg.Links)))
      = some [("/", ["/?x=1"]), ("/", [])] := by
  decide

/-- C7, amended: the pages of the site map `Crawl` returns are the pages of
URLs with pairwise distinct canonical identifiers (`RequestURI`, path and
query), each reachable from the seed and not in the cache before the call:
at most one page per identifier.  The path of a page is the path of its URL,
so two pages have the same path when their URLs differ in the query only. -/
theorem pages_distinct_identifiers (lib : Lib) (links net : List String) (url : URL)
    (sched : List Nat) (sm : SiteMap) (err : Option String) (s : State)
    (h : Crawl lib links net url sched = some (sm, err, s)) :
    ∃ L : List URL, (L.map lib.RequestURI).Nodup ∧ sm.Pages = L.map (pageOf lib) ∧
      sm.Pages.map Page.Path = L.map URL.Path ∧
      ∀ u ∈ L, Reach lib url u ∧ lib.RequestURI u ∉ links := by
  obtain ⟨L, h1, h2, h3⟩ := Crawl_account h
  refine ⟨L, h1, h2, ?_, h3⟩
  rw [h2, List.map_map]
  rfl

/-- C7, amended, on the site whose page `/` links to `/?x=1`. -/
theorem pages_distinct_identifiers_witness :
    ∃ sm err s, Crawl querySite.lib [] [] (testURL "/" "") [0, 0, 1, 1, 1, 0]
        = some (sm, err, s) ∧
      ∃ L : List URL, (L.map querySite.lib.RequestURI).Nodup ∧
        sm.Pages = L.map (pageOf querySite.lib) ∧
        sm.Pages.map Page.Path = L.map URL.Path ∧
        ∀ u ∈ L, Reach querySite.lib (testURL "/" "") u ∧ querySite.lib.RequestURI u ∉ [] := by
  have hsome : (Crawl querySite.lib [] [] (testURL "/" "") [0, 0, 1, 1, 1, 0]).isSome = true := by
    decide
  obtain ⟨⟨sm, err, s⟩, h⟩ := Option.isSome_iff_exists.mp hsome
  exact ⟨sm, err, s, h, pages_distinct_identifiers _ _ _ _ _ sm err s h⟩

/-- C8: the code at the failing input.  On the site whose page `/` links to
`/a` and `/b`, where the request for `/a` fails, the goroutine of `/a` sends
twice: the empty site map and then a site map with a page for `/a`.  When the
parent takes both, `Crawl` returns a page for `/a` and none for `/b`; when
the parent takes the first and the result of `/b`, the goroutine of `/a`
stays blocked at its second send for ever. -/
theorem failed_fetch_sends_twice :
    (Crawl failSite.lib [] [] (testURL "/" "") [0, 0, 1, 1, 1, 1, 0]).map
        (fun r => r.1.Pages.map (fun pg => (pg.Path, pg.Links)))
      = some [("/", ["/a", "/b"]), ("/a", [])] ∧
    (Crawl failSite.lib [] [] (testURL "/" "") [0, 0, 1, 1, 1, 2, 2, 2, 0]).map
        (fun r => (r.1.Pages.map (fun pg => (pg.Path, pg.Links)), r.2.2.procs[1]?,
          step failSite.lib r.2.2 1))
      = some ([("/", ["/a", "/b"]), ("/b", [])],
          some (.collect ⟨"http://test.com/a", [⟨"/a", [], []⟩]⟩ 0 (.child 0)), none) := by
  decide

/-- C9, as stated, fails: on the cycle of three pages the first call of
`Crawl` returns 3 pages and leaves 3 identifiers in the cache; the second call
on the same seed, in the process the first call left, returns no page. -/
theorem second_call_returns_nothing :
    (Crawl cycleSite.lib [] [] (testURL "/a" "") [0, 0, 1, 1, 2, 2, 3, 3, 2, 1, 0]).bind
        (fun r1 => (Crawl cycleSite.lib r1.2.2.lc r1.2.2.net (testURL "/a" "") [0, 0]).map
          (fun r2 => (r1.1.Pages.length, r1.2.2.lc, r2.1.Pages.length)))
      = some (3, ["/c", "/b", "/a"], 0) := by
  decide

/-- C9, amended: the cache is one for the process and outlives a call.  When
`Crawl` returns, every identifier that was in the cache before the call is
still in it, and for a valid seed so is the identifier of the seed; no page
of the result has an identifier that was in the cache before.  A second call
on the same seed then returns, under every schedule, a site map without pages
and requests nothing; and it does return. -/
theorem cache_outlives_call (lib : Lib) (links net : List String) (seed : URL)
    (sched : List Nat) (sm : SiteMap) (err : Option String) (s : State)
    (h : Crawl lib links net seed sched = some (sm, err, s)) :
    (∀ x ∈ links, x ∈ s.lc) ∧
    (err = none → lib.RequestURI seed ∈ s.lc) ∧
    (∃ L : List URL, sm.Pages = L.map (pageOf lib) ∧ ∀ u ∈ L, lib.RequestURI u ∉ links) ∧
    (∀ sched2 sm2 err2 s2, Crawl lib s.lc s.net seed sched2 = some (sm2, err2, s2) →
        sm2.Pages = [] ∧ s2.net = s.net ∧ s2.lc = s.lc) ∧
    (∃ sm2 err2 s2, Crawl lib s.lc s.net seed [0, 0] = some (sm2, err2, s2)) := by
  have hsecond : ∀ sched2 sm2 err2 s2,
      Crawl lib s.lc s.net seed sched2 = some (sm2, err2, s2) →
      sm2.Pages = [] ∧ s2.net = s.net ∧ s2.lc = s.lc := by
    intro sched2 sm2 err2 s2 h2
    rcases Crawl_cases h2 with ⟨_, e2, _, e4⟩ | ⟨hh, hp, _, hrun2, hrecv2⟩
    · subst e2 e4
      exact ⟨rfl, rfl, rfl⟩
    · have hseed : lib.RequestURI seed ∈ s.lc := by
        rcases Crawl_cases h with ⟨h1, _⟩ | ⟨_, _, _, hrun, hrecv⟩
        · rcases h1 with h1 | h1
          · exact absurd h1 hh
          · exact absurd h1 hp
        · rcases seed_recorded lib links net seed sched s hrun with h5 | h5
          · rw [h5] at hrecv
            simp [spawn] at hrecv
          · exact h5
      rcases visited_run lib s.lc s.net seed hseed sched2 s2 hrun2 with h5 | h5 | h5
      · rw [h5] at hrecv2
        simp [spawn] at hrecv2
      · rw [h5] at hrecv2
        simp at hrecv2
      · rw [h5] at hrecv2
        simp only [Option.some.injEq] at hrecv2
        subst hrecv2
        rw [h5]
        exact ⟨rfl, rfl, rfl⟩
  rcases Crawl_cases h with ⟨h1, h2, _, h4⟩ | ⟨hh, hp, h3, hrun, hrecv⟩
  · subst h2 h4
    refine ⟨fun x hx => hx, ?_, ⟨[], rfl, by simp⟩, hsecond, ?_⟩
    · intro he
      rcases Crawl_cases h with ⟨_, _, e3, _⟩ | ⟨hh, hp, _⟩
      · exact absurd he e3
      · rcases h1 with h1 | h1
        · exact absurd h1 hh
        · exact absurd h1 hp
    · by_cases hh : seed.Host = ""
      · exact ⟨{}, some "crawler: host missing from URL",
          { lc := links, net := net, procs := [], recv := none }, by simp [Crawl, hh]⟩
      · have hp : seed.Path = "" := h1.resolve_left hh
        exact ⟨{}, some "crawler: path missing from URL ",
          { lc := links, net := net, procs := [], recv := none }, by simp [Crawl, hh, hp]⟩
  · have hacc := account_run lib links net seed sched s hrun
    have hseed : lib.RequestURI seed ∈ s.lc := by
      rcases seed_recorded lib links net seed sched s hrun with h5 | h5
      · rw [h5] at hrecv
        simp [spawn] at hrecv
      · exact h5
    refine ⟨?_, fun _ => hseed, ?_, hsecond, ?_⟩
    · obtain ⟨L, a1, a2, a3, a4, a4b, _⟩ := hacc
      exact a4b
    · obtain ⟨L, _, h2, h3⟩ := Crawl_account h
      exact ⟨L, h2, fun u hu => (h3 u hu).2⟩
    · refine ⟨{}, none, { lc := s.lc, net := s.net, procs := [.done], recv := some {} }, ?_⟩
      simp [Crawl, hh, hp, run, step, spawn, hseed, deliver]

/-- C9, amended, on the cycle of three pages. -/
theorem cache_outlives_call_witness :
    ∃ sm err s, Crawl cycleSite.lib [] [] (testURL "/a" "") [0, 0, 1, 1, 2, 2, 3, 3, 2, 1, 0]
        = some (sm, err, s) ∧
      cycleSite.lib.RequestURI (testURL "/a" "") ∈ s.lc ∧
      ∀ sched2 sm2 err2 s2,
        Crawl cycleSite.lib s.lc s.net (testURL "/a" "") sched2 = some (sm2, err2, s2) →
        sm2.Pages = [] ∧ s2.net = s.net ∧ s2.lc = s.lc := by
  have hsome : ((Crawl cycleSite.lib [] [] (testURL "/a" "")
      [0, 0, 1, 1, 2, 2, 3, 3, 2, 1, 0]).map (fun r => r.2.1)) = some none := by
    decide
  obtain ⟨⟨sm, err, s⟩, h, herr⟩ := Option.map_eq_some'.mp hsome
  have hthm := cache_outlives_call cycleSite.lib [] [] (testURL "/a" "") _ sm err s h
  exact ⟨sm, err, s, h, hthm.2.1 herr, hthm.2.2.2.1⟩

/-- C10: the claim step at the head of `crawl`, for a goroutine about to
test the cache for the identifier `id` of its URL.  When `id` is not in the
cache the step succeeds: the cache becomes `id` added to what it was, so its
members are `id` and the old members, nothing else of the process changes,
and the goroutine stands before `fetch`, its next step being the request.
When `id` is in the cache already the cache is left exactly as it was, nothing
is requested, and the goroutine stands at the send of the empty site map:
its next step hands the empty site map to its receiver and returns, without
a request. -/
theorem claim_step (lib : Lib) (s : State) (i : Nat) (url : URL) (ch : Chan)
    (hi : s.procs[i]? = some (.start url ch)) :
    (lib.RequestURI url ∉ s.lc →
        step lib s i = some { s with lc := lib.RequestURI url :: s.lc,
                                     procs := s.procs.set i (.claimed url ch) } ∧
        (∀ x, x ∈ lib.RequestURI url :: s.lc ↔ x = lib.RequestURI url ∨ x ∈ s.lc) ∧
        ∀ t : State, t.procs[i]? = some (.claimed url ch) →
          ∃ t2, step lib t i = some t2 ∧ t2.net = lib.URLString url :: t.net) ∧
    (lib.RequestURI url ∈ s.lc →
        step lib s i = some { s with procs := s.procs.set i (.collect {} 0 ch) } ∧
        ∀ t : State, t.procs[i]? = some (.collect {} 0 ch) →
          step lib t i = (deliver t ch {}).map
              (fun t1 => { t1 with procs := t1.procs.set i .done }) ∧
          ∀ t2, step lib t i = some t2 → t2.net = t.net ∧ t2.lc = t.lc ∧
            t2.procs[i]? = some .done) := by
  refine ⟨fun hm => ⟨?_, ?_, ?_⟩, fun hm => ⟨?_, ?_⟩⟩
  · simp [step, hi, hm]
  · intro x
    exact List.mem_cons
  · intro t ht
    unfold step
    rw [ht]
    simp only
    split
    · exact ⟨_, rfl, rfl⟩
    · exact ⟨_, rfl, rfl⟩
  · simp [step, hi, hm]
  · intro t ht
    have hstep : step lib t i = (deliver t ch {}).map
        (fun t1 => { t1 with procs := t1.procs.set i .done }) := by
      unfold step
      rw [ht]
      simp only
      cases deliver t ch {} <;> rfl
    refine ⟨hstep, ?_⟩
    intro t2 h2
    have hst := step_sound h2
    cases hst with
    | claimFail hj _ => rw [ht] at hj; simp at hj
    | claimOk hj _ => rw [ht] at hj; simp at hj
    | fetchOk hj _ => rw [ht] at hj; simp at hj
    | fetchErr hj _ => rw [ht] at hj; simp at hj
    | errSend hj _ => rw [ht] at hj; simp at hj
    | send hj hd =>
      obtain ⟨d1, d2, d3, d4, d5, d6, d7, d8, d9, d10⟩ := deliver_effect hd
      have := d10 i _ hj (Proc.expect_eqs.2.2.2.1 _ _ _)
      exact ⟨d2, d1, getElem?_set_self_of _ i _ _ this⟩

/-- C10, on the first goroutine of a traversal of the cycle, with an empty
cache and with a cache that holds the identifier. -/
theorem claim_step_witness :
    step cycleSite.lib (spawn [] [] (testURL "/a" "")) 0
      = some { lc := ["/a"], net := [], procs := [.claimed (testURL "/a" "") .root],
               recv := none } ∧
    step cycleSite.lib (spawn ["/a"] [] (testURL "/a" "")) 0
      = some { lc := ["/a"], net := [], procs := [.collect {} 0 .root], recv := none } :=
  ⟨((claim_step cycleSite.lib (spawn [] [] (testURL "/a" "")) 0 (testURL "/a" "") .root rfl).1
      (by decide)).1,
   ((claim_step cycleSite.lib (spawn ["/a"] [] (testURL "/a" "")) 0 (testURL "/a" "") .root
      rfl).2 (by decide)).1⟩
/-- The strings `TestSitePageString` expects. -/
theorem TestSitePageString :
    pgData.map Page.String =
      ["Path: \n\t/\n\tLinks:\n\t\t/bar?foo=bar&this=that\n\t\t/foo\n\tAssets:\n\t\t/css/doc1.css\n\t\t/images/doc1.jpg\n\t\tdoc1.js\n\t\thttp://images.com/doc1.jpg\n\t\thttp://scripts.com/doc1.js\n",
       "Path: \n\t/foo\n\tLinks:\n\t\t/?foo=bar&this=that\n\t\t/bar\n\tAssets:\n\t\t/doc2/doc2.js\n\t\t/images/doc2.jpg\n\t\tdoc2.css\n\t\tdoc2.js\n",
       "Path: \n\t/bar\n\tLinks:\n\t\t/foo\n\tAssets:\n\t\t/images/doc3.jpg\n\t\tdoc3.css\n\t\tdoc3.js\n"] := by
  decide

/-- The string `TestSiteMapString` expects. -/
theorem TestSiteMapString :
    SiteMap.String { URL := "http://test.com", Pages := pgData } =
      "Site map for http://test.com\nPath: \n\t/\n\tLinks:\n\t\t/bar?foo=bar&this=that\n\t\t/foo\n\tAssets:\n\t\t/css/doc1.css\n\t\t/images/doc1.jpg\n\t\tdoc1.js\n\t\thttp://images.com/doc1.jpg\n\t\thttp://scripts.com/doc1.js\nPath: \n\t/foo\n\tLinks:\n\t\t/?foo=bar&this=that\n\t\t/bar\n\tAssets:\n\t\t/doc2/doc2.js\n\t\t/images/doc2.jpg\n\t\tdoc2.css\n\t\tdoc2.js\nPath: \n\t/bar\n\tLinks:\n\t\t/foo\n\tAssets:\n\t\t/images/doc3.jpg\n\t\tdoc3.css\n\t\tdoc3.js\n" := by
  decide

/-- The results `TestParse` expects of `parse` on the second document, and
on the other two. -/
theorem TestParse :
    [parse mockSite.lib "doc1" (testURL "/" ""), parse mockSite.lib "doc2" (testURL "/" ""),
      parse mockSite.lib "doc3" (testURL "/" "")]
      = pgData.map (fun pg => (pg.Links, pg.Assets)) ∧
    (testURL "/" "").Path ∉ (parse mockSite.lib "doc2" (testURL "/" "")).1 := by
  decide

/-- The table `TestAttrs` expects. -/
theorem TestAttrs :
    attrs.length = 4 ∧ attrs.lookup atag = some href ∧ attrs.lookup stag = some src ∧
    attrs.lookup itag = some src ∧ attrs.lookup ltag = some href := by
  decide

/-- The crawl of `TestCrawl` under one schedule: five pages, the first page
with each path of `pgData` having the links and assets expected. -/
theorem TestCrawl :
    (Crawl mockSite.lib [] [] noHostURL []).map (fun r => r.2.1.isSome) = some true ∧
    (Crawl mockSite.lib [] [] (testURL "" "") []).map (fun r => r.2.1.isSome) = some true ∧
    (Crawl mockSite.lib [] [] (testURL "/" "")
        [0, 0, 1, 1, 2, 2, 3, 3, 1, 4, 4, 5, 5, 6, 6, 7, 7, 8, 8, 4, 9, 9, 5, 2, 0]).map
        (fun r => (r.2.1, r.1.Pages.map (fun pg => (pg.Path, pg.Links)),
          pgData.all (fun want => r.1.Pages.find? (fun pg => pg.Path = want.Path) = some want)))
      = some (none,
          [("/", ["/bar?foo=bar&this=that", "/foo"]),
           ("/bar", ["/foo"]),
           ("/foo", ["/?foo=bar&this=that", "/bar"]),
           ("/", ["/", "/bar?foo=bar&this=that", "/foo"]),
           ("/bar", ["/foo"])],
          true) := by
  decide


end Crawler
